import Mathlib

/-!
Verification of the declarative-file parsing and semantic-linking engine of
the HOI4GFXManager repository (`src/gui_previewer.py`, `src/main.py`).

Strings are modelled as `List Char` (`Str`).  Each definition below is a
shallow embedding of one Python function of the source; the regular
expressions used by the source are small and deterministic (greedy character
classes followed by a character not in the class), so each is embedded as an
explicit scanner with the same match semantics.  Fields of the Python data
classes that are written by the parser but never read by any verified
property (purely visual styling: sprites, fonts, margins, orientation, ...)
are omitted from the element record; this is noted where it applies.
-/

set_option maxHeartbeats 1000000
set_option maxRecDepth 10000
set_option linter.unusedVariables false

abbrev Str := List Char

/-- Python `\s` character class (ASCII range, as produced by the sources). -/
def pySpace (c : Char) : Bool :=
  c = ' ' || c = '\t' || c = '\n' || c = '\r' || c = '\x0b' || c = '\x0c'

/-- Python `str.strip()` restricted to the ASCII whitespace of `pySpace`. -/
def pyStrip (s : Str) : Str :=
  ((s.dropWhile pySpace).reverse.dropWhile pySpace).reverse

def skipSpaces (s : Str) : Str := s.dropWhile pySpace

/-- Match a literal string at the head of `s`, returning the rest. -/
def matchLit : Str → Str → Option Str
  | [], s => some s
  | _, [] => none
  | c :: p, d :: s => if c = d then matchLit p s else none

theorem matchLit_length_le : ∀ (p s r : Str), matchLit p s = some r → r.length ≤ s.length
  | [], s, r, h => by simp [matchLit] at h; simp [h]
  | _ :: _, [], _, h => by simp [matchLit] at h
  | c :: p, d :: s, r, h => by
    simp only [matchLit] at h
    split at h
    · exact Nat.le_trans (matchLit_length_le p s r h) (Nat.le_succ _)
    · exact absurd h (by simp)

theorem matchLit_append (p r : Str) : matchLit p (p ++ r) = some r := by
  induction p with
  | nil => simp [matchLit]
  | cons c t ih => simp [matchLit, ih]

theorem skipSpaces_length_le (s : Str) : (skipSpaces s).length ≤ s.length :=
  (List.dropWhile_sublist (l := s) (p := pySpace)).length_le

/-- After the literal `tag`, skip `\s*`, expect `=`, skip `\s*`, expect `{`;
return the text after the `{`.  This is the opening pattern
`tag\s*=\s*\{` used by both `_extract_block_content` and
`_extract_block_content_simple`. -/
def tagOpenAt (tag s : Str) : Option Str :=
  match matchLit tag s with
  | none => none
  | some r1 =>
    match skipSpaces r1 with
    | '=' :: r2 =>
      match skipSpaces r2 with
      | '{' :: r3 => some r3
      | _ => none
    | _ => none

theorem tagOpenAt_length_lt (tag s r : Str) (h : tagOpenAt tag s = some r) :
    r.length < s.length := by
  unfold tagOpenAt at h
  split at h
  · simp at h
  · rename_i r1 h1
    split at h
    · rename_i r2 h2
      split at h
      · rename_i r3 h3
        have hr : r = r3 := by simpa using h.symm
        have e1 : r1.length ≤ s.length := matchLit_length_le _ _ _ h1
        have e2 : ('=' :: r2).length ≤ r1.length := h2 ▸ skipSpaces_length_le r1
        have e3 : ('{' :: r3).length ≤ r2.length := h3 ▸ skipSpaces_length_le r2
        subst hr
        simp only [List.length_cons] at e2 e3
        omega
      · simp at h
    · simp at h

/-- Leftmost occurrence of `tag\s*=\s*\{` in `s` (the scan of `re.search`);
returns the text directly after the matched `{`.  (On the empty string the
opening pattern can never match, so the scan stops.) -/
def findTagOpen (tag : Str) : Str → Option Str
  | [] => none
  | c :: t =>
    match tagOpenAt tag (c :: t) with
    | some r => some r
    | none => findTagOpen tag t

theorem findTagOpen_length_lt (tag : Str) :
    ∀ (s r : Str), findTagOpen tag s = some r → r.length < s.length := by
  intro s
  induction s with
  | nil => intro r h; simp [findTagOpen] at h
  | cons c t ih =>
    intro r h
    rw [findTagOpen] at h
    split at h
    · rename_i h1
      have hr : tagOpenAt tag (c :: t) = some r := by rw [h1]; exact congrArg some (by simpa using h)
      exact tagOpenAt_length_lt tag (c :: t) r hr
    · exact Nat.lt_trans (ih r h) (Nat.lt_succ_self _)

/-- The brace-depth scan of `_extract_block_content` /
`_extract_block_content_simple` / `_extract_gui_definitions`: starting just
after an opening `{` (`depth` extra unclosed braces seen so far), return the
text up to the matching `}` (exclusive) and the rest after it; `none` when
the depth never returns to zero (unbalanced input, silently dropped). -/
def takeBalanced : Str → Nat → Option (Str × Str)
  | [], _ => none
  | c :: t, depth =>
    if c = '}' then
      if depth = 0 then some ([], t)
      else (takeBalanced t (depth - 1)).map (fun p => (c :: p.1, p.2))
    else if c = '{' then
      (takeBalanced t (depth + 1)).map (fun p => (c :: p.1, p.2))
    else
      (takeBalanced t depth).map (fun p => (c :: p.1, p.2))

theorem takeBalanced_length :
    ∀ (s : Str) (d : Nat) (a r : Str), takeBalanced s d = some (a, r) →
      a.length + 1 + r.length = s.length
  | [], _, _, _, h => by simp [takeBalanced] at h
  | c :: t, d, a, r, h => by
    rw [takeBalanced] at h
    split at h
    · split at h
      · obtain ⟨h1, h2⟩ := Prod.mk.injEq .. ▸ (Option.some.injEq .. ▸ h)
        subst h1; subst h2; simp only [List.length_nil, List.length_cons]; omega
      · obtain ⟨p, hp, he⟩ := Option.map_eq_some'.mp h
        obtain ⟨h1, h2⟩ := Prod.mk.injEq .. ▸ he
        subst h1; subst h2
        have := takeBalanced_length t (d - 1) p.1 p.2 (by rw [hp])
        simp; omega
    · split at h
      · obtain ⟨p, hp, he⟩ := Option.map_eq_some'.mp h
        obtain ⟨h1, h2⟩ := Prod.mk.injEq .. ▸ he
        subst h1; subst h2
        have := takeBalanced_length t (d + 1) p.1 p.2 (by rw [hp])
        simp; omega
      · obtain ⟨p, hp, he⟩ := Option.map_eq_some'.mp h
        obtain ⟨h1, h2⟩ := Prod.mk.injEq .. ▸ he
        subst h1; subst h2
        have := takeBalanced_length t d p.1 p.2 (by rw [hp])
        simp; omega

theorem takeBalanced_rest_lt (s : Str) (d : Nat) (a r : Str)
    (h : takeBalanced s d = some (a, r)) : r.length < s.length := by
  have := takeBalanced_length s d a r h; omega

theorem takeBalanced_inner_lt (s : Str) (d : Nat) (a r : Str)
    (h : takeBalanced s d = some (a, r)) : a.length < s.length := by
  have := takeBalanced_length s d a r h; omega

/-- A single step of one of the source's cursor-advancing scan loops:
emit a match and jump the cursor past it, advance one position, or end the
scan. -/
inductive ScanStep (alpha : Type) where
  | yield (x : alpha) (rest : Str)
  | skip
  | stop

/-- Fuel-indexed driver for the scan loops; `scanAll` supplies enough fuel,
and `scanLoop_stable` shows the fuel is invisible. -/
def scanLoop {alpha : Type} (step : Str -> ScanStep alpha) : Nat -> Str -> List alpha
  | 0, _ => []
  | fuel + 1, s =>
    match step s with
    | .yield x r => x :: scanLoop step fuel r
    | .skip =>
      match s with
      | [] => []
      | _ :: t => scanLoop step fuel t
    | .stop => []

/-- A scan step only ever jumps the cursor forward. -/
def DecreasingStep {alpha : Type} (step : Str -> ScanStep alpha) : Prop :=
  forall s x r, step s = .yield x r -> r.length < s.length

theorem scanLoop_succ {alpha : Type} (step : Str -> ScanStep alpha) (fuel : Nat) (s : Str) :
    scanLoop step (fuel + 1) s =
      match step s with
      | .yield x r => x :: scanLoop step fuel r
      | .skip =>
        match s with
        | [] => []
        | _ :: t => scanLoop step fuel t
      | .stop => [] := rfl

theorem scanLoop_stable {alpha : Type} (step : Str -> ScanStep alpha)
    (hdec : DecreasingStep step) :
    forall (n f1 f2 : Nat) (s : Str), s.length <= n -> s.length < f1 -> s.length < f2 ->
      scanLoop step f1 s = scanLoop step f2 s := by
  intro n
  induction n with
  | zero =>
    intro f1 f2 s hn h1 h2
    match f1, h1 with
    | g1 + 1, h1x =>
    match f2, h2 with
    | g2 + 1, h2x =>
    rw [scanLoop_succ, scanLoop_succ]
    cases hstep : step s with
    | yield x r =>
      exact absurd (hdec s x r hstep) (by omega)
    | skip =>
      cases s with
      | nil => rfl
      | cons c t => simp at hn
    | stop => rfl
  | succ n ih =>
    intro f1 f2 s hn h1 h2
    match f1, h1 with
    | g1 + 1, h1x =>
    match f2, h2 with
    | g2 + 1, h2x =>
    rw [scanLoop_succ, scanLoop_succ]
    cases hstep : step s with
    | yield x r =>
      have hr := hdec s x r hstep
      exact congrArg (List.cons x)
        (ih g1 g2 r (by omega) (by omega) (by omega))
    | skip =>
      cases s with
      | nil => rfl
      | cons c t =>
        simp only [List.length_cons] at h1x h2x hn
        exact ih g1 g2 t (by omega) (by omega) (by omega)
    | stop => rfl

def scanAll {alpha : Type} (step : Str -> ScanStep alpha) (s : Str) : List alpha :=
  scanLoop step (s.length + 1) s

/-- The recursion equation every scan loop satisfies. -/
theorem scanAll_eq {alpha : Type} (step : Str -> ScanStep alpha)
    (hdec : DecreasingStep step) (s : Str) :
    scanAll step s =
      match step s with
      | .yield x r => x :: scanAll step r
      | .skip =>
        match s with
        | [] => []
        | _ :: t => scanAll step t
      | .stop => [] := by
  unfold scanAll
  rw [scanLoop_succ]
  cases hstep : step s with
  | yield x r =>
    have hr := hdec s x r hstep
    exact congrArg (List.cons x)
      (scanLoop_stable step hdec r.length s.length (r.length + 1) r (Nat.le_refl _)
        (by omega) (by omega))
  | skip =>
    cases s with
    | nil => rfl
    | cons c t =>
      exact scanLoop_stable step hdec t.length (t.length + 1) (t.length + 1) t (Nat.le_refl _)
        (by omega) (by omega)
  | stop => rfl

/-- One iteration of `_extract_block_content` /
`_extract_block_content_simple`: find the next `tag\s*=\s*\{`, match
braces; an unbalanced block ends the scan with nothing appended (the Python
loop sets the cursor to the end of the input). -/
def blockStep (tag : Str) (s : Str) : ScanStep Str :=
  match findTagOpen tag s with
  | none => .stop
  | some after =>
    match takeBalanced after 0 with
    | none => .stop
    | some (inner, rest) => .yield inner rest

theorem blockStep_dec (tag : Str) : DecreasingStep (blockStep tag) := by
  intro s x r h
  unfold blockStep at h
  split at h
  · simp at h
  · rename_i after h1
    split at h
    · simp at h
    · rename_i inner rest h2
      obtain ⟨h3, h4⟩ := ScanStep.yield.injEq .. ▸ h
      subst h4
      exact Nat.lt_trans (takeBalanced_rest_lt _ _ _ _ h2) (findTagOpen_length_lt _ _ _ h1)

/-- `HOI4GUIParser._extract_block_content` (plain tag) and
`ScriptedGUIParser._extract_block_content_simple`. -/
def extractBlockContent (tag : Str) (s : Str) : List Str :=
  scanAll (blockStep tag) s

theorem extractBlockContent_eq (tag s : Str) :
    extractBlockContent tag s =
      match findTagOpen tag s with
      | none => []
      | some after =>
        match takeBalanced after 0 with
        | none => []
        | some (inner, rest) => inner :: extractBlockContent tag rest := by
  conv_lhs => rw [extractBlockContent, scanAll_eq (blockStep tag) (blockStep_dec tag)]
  cases h1 : findTagOpen tag s with
  | none => simp [blockStep, h1]
  | some after =>
    cases h2 : takeBalanced after 0 with
    | none => simp [blockStep, h1, h2]
    | some p => simp [extractBlockContent, blockStep, h1, h2]

/-- ASCII lower-casing, for the case-insensitive regex flags of the source. -/
def lowerChar (c : Char) : Char :=
  if 'A' ≤ c ∧ c ≤ 'Z' then Char.ofNat (c.toNat + 32) else c

/-- `matchLit` under `re.IGNORECASE`. -/
def matchLitCI : Str → Str → Option Str
  | [], s => some s
  | _, [] => none
  | c :: p, d :: s => if lowerChar c = lowerChar d then matchLitCI p s else none

/-- `tagOpenAt` with the tag matched case-insensitively (the `(?i)` prefix
supported by `_extract_block_content`). -/
def tagOpenAtCI (tag s : Str) : Option Str :=
  match matchLitCI tag s with
  | none => none
  | some r1 =>
    match skipSpaces r1 with
    | '=' :: r2 =>
      match skipSpaces r2 with
      | '{' :: r3 => some r3
      | _ => none
    | _ => none

def findTagOpenCI (tag : Str) : Str → Option Str
  | [] => none
  | c :: t =>
    match tagOpenAtCI tag (c :: t) with
    | some r => some r
    | none => findTagOpenCI tag t

theorem matchLitCI_length_le : ∀ (p s r : Str), matchLitCI p s = some r → r.length ≤ s.length
  | [], s, r, h => by simp [matchLitCI] at h; simp [h]
  | _ :: _, [], _, h => by simp [matchLitCI] at h
  | c :: p, d :: s, r, h => by
    simp only [matchLitCI] at h
    split at h
    · exact Nat.le_trans (matchLitCI_length_le p s r h) (Nat.le_succ _)
    · exact absurd h (by simp)

theorem tagOpenAtCI_length_lt (tag s r : Str) (h : tagOpenAtCI tag s = some r) :
    r.length < s.length := by
  unfold tagOpenAtCI at h
  split at h
  · simp at h
  · rename_i r1 h1
    split at h
    · rename_i r2 h2
      split at h
      · rename_i r3 h3
        have hr : r = r3 := by simpa using h.symm
        have e1 : r1.length ≤ s.length := matchLitCI_length_le _ _ _ h1
        have e2 : ('=' :: r2).length ≤ r1.length := h2 ▸ skipSpaces_length_le r1
        have e3 : ('{' :: r3).length ≤ r2.length := h3 ▸ skipSpaces_length_le r2
        subst hr
        simp only [List.length_cons] at e2 e3
        omega
      · simp at h
    · simp at h

theorem findTagOpenCI_length_lt (tag : Str) :
    ∀ (s r : Str), findTagOpenCI tag s = some r → r.length < s.length := by
  intro s
  induction s with
  | nil => intro r h; simp [findTagOpenCI] at h
  | cons c t ih =>
    intro r h
    rw [findTagOpenCI] at h
    split at h
    · rename_i h1
      have hr : tagOpenAtCI tag (c :: t) = some r := by
        rw [h1]; exact congrArg some (by simpa using h)
      exact tagOpenAtCI_length_lt tag (c :: t) r hr
    · exact Nat.lt_trans (ih r h) (Nat.lt_succ_self _)

/-- `_extract_block_content` with a `(?i)`-prefixed tag
(used for `instantTextboxType`). -/
def blockStepCI (tag : Str) (s : Str) : ScanStep Str :=
  match findTagOpenCI tag s with
  | none => .stop
  | some after =>
    match takeBalanced after 0 with
    | none => .stop
    | some (inner, rest) => .yield inner rest

theorem blockStepCI_dec (tag : Str) : DecreasingStep (blockStepCI tag) := by
  intro s x r h
  unfold blockStepCI at h
  split at h
  · simp at h
  · rename_i after h1
    split at h
    · simp at h
    · rename_i inner rest h2
      obtain ⟨h3, h4⟩ := ScanStep.yield.injEq .. ▸ h
      subst h4
      exact Nat.lt_trans (takeBalanced_rest_lt _ _ _ _ h2) (findTagOpenCI_length_lt _ _ _ h1)

def extractBlockContentCI (tag : Str) (s : Str) : List Str :=
  scanAll (blockStepCI tag) s

/-- Body scan of the depth-one regex
`\{([^{}]*(?:\{[^{}]*\}[^{}]*)*)\}` (after its opening `{`): succeeds at the
first `}` at depth zero; fails on a second-level `{` or at end of input,
exactly when the regex cannot match at this start position. -/
def depth1Scan : Str → Bool → Option (Str × Str)
  | [], _ => none
  | c :: t, inBrace =>
    if c = '}' then
      if inBrace then (depth1Scan t false).map (fun p => (c :: p.1, p.2))
      else some ([], t)
    else if c = '{' then
      if inBrace then none
      else (depth1Scan t true).map (fun p => (c :: p.1, p.2))
    else
      (depth1Scan t inBrace).map (fun p => (c :: p.1, p.2))

theorem depth1Scan_length :
    ∀ (s : Str) (b : Bool) (a r : Str), depth1Scan s b = some (a, r) →
      a.length + 1 + r.length = s.length
  | [], _, _, _, h => by simp [depth1Scan] at h
  | c :: t, b, a, r, h => by
    rw [depth1Scan] at h
    split at h
    · split at h
      · obtain ⟨p, hp, he⟩ := Option.map_eq_some'.mp h
        obtain ⟨h1, h2⟩ := Prod.mk.injEq .. ▸ he
        subst h1; subst h2
        have := depth1Scan_length t false p.1 p.2 (by rw [hp])
        simp; omega
      · obtain ⟨h1, h2⟩ := Prod.mk.injEq .. ▸ (Option.some.injEq .. ▸ h)
        subst h1; subst h2; simp only [List.length_nil, List.length_cons]; omega
    · split at h
      · split at h
        · simp at h
        · obtain ⟨p, hp, he⟩ := Option.map_eq_some'.mp h
          obtain ⟨h1, h2⟩ := Prod.mk.injEq .. ▸ he
          subst h1; subst h2
          have := depth1Scan_length t true p.1 p.2 (by rw [hp])
          simp; omega
      · obtain ⟨p, hp, he⟩ := Option.map_eq_some'.mp h
        obtain ⟨h1, h2⟩ := Prod.mk.injEq .. ▸ he
        subst h1; subst h2
        have := depth1Scan_length t b p.1 p.2 (by rw [hp])
        simp; omega

theorem depth1Scan_rest_lt (s : Str) (b : Bool) (a r : Str)
    (h : depth1Scan s b = some (a, r)) : r.length < s.length := by
  have := depth1Scan_length s b a r h; omega

/-- `re.findall(tag + r'\s*=\s*\{([^{}]*(?:\{[^{}]*\}[^{}]*)*)\}', s)`:
scan start positions left to right; on a full match collect the group and
continue after the closing brace, on failure advance one character. -/
def depth1Step (tag : Str) (s : Str) : ScanStep Str :=
  match tagOpenAt tag s with
  | some after =>
    match depth1Scan after false with
    | some (g, rest) => .yield g rest
    | none => .skip
  | none => .skip

theorem depth1Step_dec (tag : Str) : DecreasingStep (depth1Step tag) := by
  intro s x r h
  unfold depth1Step at h
  split at h
  · rename_i after h1
    split at h
    · rename_i g rest h2
      obtain ⟨h3, h4⟩ := ScanStep.yield.injEq .. ▸ h
      subst h4
      exact Nat.lt_trans (depth1Scan_rest_lt _ _ _ _ h2) (tagOpenAt_length_lt _ _ _ h1)
    · simp at h
  · simp at h

def findAllDepth1 (tag : Str) (s : Str) : List Str :=
  scanAll (depth1Step tag) s

/-- The greedy group `(.*)` of the root-block pattern with `re.DOTALL`:
keep everything before the last `}` of `s`; `none` when `s` has no `}`
(then the root pattern cannot match anywhere). -/
def upToLastClose : Str → Option Str
  | [] => none
  | c :: t =>
    match upToLastClose t with
    | some r => some (c :: r)
    | none => if c = '}' then some [] else none

/-- Root-block search `tag\s*=\s*\{(.*)\}` (DOTALL): leftmost opening,
greedy body up to the last `}` of the whole remaining text.  If the leftmost
opening has no `}` after it, no later opening has either, so the search
fails exactly when this returns `none`. -/
def rootBlock (tag : Str) (s : Str) : Option Str :=
  match findTagOpen tag s with
  | none => none
  | some after => upToLastClose after

/-- `_remove_comments` of both parsers: per line, drop everything from the
first `#` to the end of the line (newlines kept by the re-join); expressed
as a character scan with an in-comment flag. -/
def removeCommentsGo : Bool → Str → Str
  | _, [] => []
  | inComment, c :: t =>
    if c = '\n' then c :: removeCommentsGo false t
    else if inComment then removeCommentsGo true t
    else if c = '#' then removeCommentsGo true t
    else c :: removeCommentsGo false t

def removeComments (s : Str) : Str := removeCommentsGo false s

/-- Generic leftmost-match scan: try the position matcher `f` at every start
position of `s`, left to right (the behaviour of `re.search`). -/
def findMap {α : Type} (f : Str → Option α) : Str → Option α
  | [] => f []
  | c :: t =>
    match f (c :: t) with
    | some v => some v
    | none => findMap f t

def expectChar (c : Char) : Str → Option Str
  | d :: t => if d = c then some t else none
  | [] => none

def quoteChar (c : Char) : Bool := c = '"' || c = '\''

/-- Position matcher for `prop\s*=\s*["\']([^"\'}]+)["\']` (the quoted form
of `_extract_property`): the greedy character class stops at the first
quote, which must then close the group. -/
def quotedValAt (prop s : Str) : Option Str := do
  let r1 ← matchLit prop s
  let r2 ← expectChar '=' (skipSpaces r1)
  match skipSpaces r2 with
  | q :: r3 =>
    if quoteChar q then
      let grp := r3.takeWhile (fun c => ¬(quoteChar c ∨ c = '}'))
      if grp.isEmpty then none
      else
        match r3.drop grp.length with
        | q2 :: _ => if quoteChar q2 then some grp else none
        | [] => none
    else none
  | [] => none

/-- Position matcher for `prop\s*=\s*([^\s}]+)` (the bare-token form). -/
def bareValAt (prop s : Str) : Option Str := do
  let r1 ← matchLit prop s
  let r2 ← expectChar '=' (skipSpaces r1)
  let r3 := skipSpaces r2
  let grp := r3.takeWhile (fun c => ¬(pySpace c ∨ c = '}'))
  if grp.isEmpty then none else some grp

/-- `HOI4GUIParser._extract_property`: quoted form first, bare-token form as
fallback; result is `.strip()`-ed, quotes are NOT stripped from the bare
fallback. -/
def hoi4ExtractProperty (prop s : Str) : Option Str :=
  match findMap (quotedValAt prop) s with
  | some v => some (pyStrip v)
  | none => (findMap (bareValAt prop) s).map pyStrip

/-- Scan restricted to the `(?:^|\n)` anchor of
`ScriptedGUIParser._extract_property` under `re.MULTILINE`: the matcher is
tried only at the start of the text and directly after each newline. -/
def anchoredFindGo {α : Type} (f : Str → Option α) : Bool → Str → Option α
  | anchored, [] => if anchored then f [] else none
  | anchored, c :: t =>
    match (if anchored then f (c :: t) else none) with
    | some v => some v
    | none => anchoredFindGo f (c = '\n') t

def anchoredFind {α : Type} (f : Str → Option α) (s : Str) : Option α :=
  anchoredFindGo f true s

/-- Python's conditional quote stripping
`value[1:-1]` when the value starts and ends with the same quote. -/
def stripQuotes (v : Str) : Str :=
  match v with
  | [] => []
  | c :: _ =>
    if (c = '"' ∧ v.getLast? = some '"') ∨ (c = '\'' ∧ v.getLast? = some '\'') then
      (v.drop 1).dropLast
    else v

/-- `ScriptedGUIParser._extract_property`: despite its comment, it tries the
anchored BARE pattern `(?:^|\n)\s*prop\s*=\s*([^\s}]+)` first (with quote
stripping), and only falls back to the anchored quoted pattern
`(?:^|\n)\s*prop\s*=\s*["\']([^\'"}]+)["\']`. -/
def scriptedExtractProperty (prop s : Str) : Option Str :=
  match anchoredFind (fun r => bareValAt prop (skipSpaces r)) s with
  | some v => some (stripQuotes (pyStrip v))
  | none => (anchoredFind (fun r => quotedValAt prop (skipSpaces r)) s).map pyStrip

/-- Truthiness of an optional string in Python (`if name:`):
`None` and the empty string are both falsy. -/
def getTruthy (v : Option Str) : Option Str :=
  match v with
  | some s => if s.isEmpty then none else some s
  | none => none

/-- Position matcher for the boolean pattern
`prop\s*=\s*(yes|no|true|false)` under `re.IGNORECASE`. -/
def boolAt (prop s : Str) : Option Bool := do
  let r1 ← matchLitCI prop s
  let r2 ← expectChar '=' (skipSpaces r1)
  let r3 := skipSpaces r2
  match matchLitCI "yes".toList r3 with
  | some _ => some true
  | none =>
    match matchLitCI "no".toList r3 with
    | some _ => some false
    | none =>
      match matchLitCI "true".toList r3 with
      | some _ => some true
      | none =>
        match matchLitCI "false".toList r3 with
        | some _ => some false
        | none => none

/-- `_extract_boolean_property` of both parsers. -/
def extractBooleanProperty (prop s : Str) : Option Bool :=
  findMap (boolAt prop) s

def readNat (s : Str) : Option (Nat × Str) :=
  let ds := s.takeWhile Char.isDigit
  if ds.isEmpty then none
  else some (ds.foldl (fun a c => a * 10 + (c.toNat - '0'.toNat)) 0, s.drop ds.length)

def readInt (s : Str) : Option (Int × Str) :=
  match s with
  | '+' :: t => (readNat t).map (fun p => ((p.1 : Int), p.2))
  | '-' :: t => (readNat t).map (fun p => (-(p.1 : Int), p.2))
  | _ => (readNat s).map (fun p => ((p.1 : Int), p.2))

/-- The numeric literal class `[+-]?(?:\d+\.?\d*|\.\d+)` of
`ScriptedGUIParser._extract_numeric_property`, returned as the matched
literal (the float conversion is never inspected downstream, only presence
is). -/
def numLitAt (prop s : Str) : Option Str := do
  let r1 ← matchLit prop s
  let r2 ← expectChar '=' (skipSpaces r1)
  let r3 := skipSpaces r2
  match r3 with
  | '+' :: r4 => (numBody r4).map (fun l => '+' :: l)
  | '-' :: r4 => (numBody r4).map (fun l => '-' :: l)
  | _ => numBody r3
where
  numBody (u : Str) : Option Str :=
    let ds := u.takeWhile Char.isDigit
    if ds.isEmpty then
      match u with
      | '.' :: u2 =>
        let ds2 := u2.takeWhile Char.isDigit
        if ds2.isEmpty then none else some ('.' :: ds2)
      | _ => none
    else
      match u.drop ds.length with
      | '.' :: u2 => some (ds ++ '.' :: u2.takeWhile Char.isDigit)
      | _ => some ds

def scriptedExtractNumericProperty (prop s : Str) : Option Str :=
  findMap (numLitAt prop) s

/-- Integer pair of `gui_previewer.Position` (defaults `(0, 0)`). -/
structure Position where
  x : Int := 0
  y : Int := 0
deriving DecidableEq, Repr

/-- Integer pair of `gui_previewer.Size` (defaults `(100, 100)`, the root
canvas default being `(800, 600)`). -/
structure Size where
  width : Nat := 100
  height : Nat := 100
deriving DecidableEq, Repr

/-- `position\s*=\s*\{\s*x\s*=\s*([+-]?\d+)\s*y\s*=\s*([+-]?\d+)\s*\}` -/
def positionNamedAt (s : Str) : Option Position := do
  let r1 ← matchLit "position".toList s
  let r2 ← expectChar '=' (skipSpaces r1)
  let r3 ← expectChar '{' (skipSpaces r2)
  let r4 ← expectChar 'x' (skipSpaces r3)
  let r5 ← expectChar '=' (skipSpaces r4)
  let (x, r6) ← readInt (skipSpaces r5)
  let r7 ← expectChar 'y' (skipSpaces r6)
  let r8 ← expectChar '=' (skipSpaces r7)
  let (y, r9) ← readInt (skipSpaces r8)
  let _ ← expectChar '}' (skipSpaces r9)
  pure { x := x, y := y }

/-- `position\s*=\s*\{\s*([+-]?\d+)\s+([+-]?\d+)\s*\}` -/
def positionSimpleAt (s : Str) : Option Position := do
  let r1 ← matchLit "position".toList s
  let r2 ← expectChar '=' (skipSpaces r1)
  let r3 ← expectChar '{' (skipSpaces r2)
  let (x, r4) ← readInt (skipSpaces r3)
  match r4 with
  | c :: _ =>
    if pySpace c then do
      let (y, r5) ← readInt (skipSpaces r4)
      let _ ← expectChar '}' (skipSpaces r5)
      pure { x := x, y := y }
    else none
  | [] => none

/-- `HOI4GUIParser._extract_position`: named form, then bare two-integer
form, then the `(0, 0)` default. -/
def extractPosition (s : Str) : Position :=
  match findMap positionNamedAt s with
  | some p => p
  | none =>
    match findMap positionSimpleAt s with
    | some p => p
    | none => {}

/-- `size\s*=\s*\{\s*width\s*=\s*(\d+)\s*height\s*=\s*(\d+)\s*\}` -/
def sizeNamedAt (s : Str) : Option Size := do
  let r1 ← matchLit "size".toList s
  let r2 ← expectChar '=' (skipSpaces r1)
  let r3 ← expectChar '{' (skipSpaces r2)
  let r4 ← matchLit "width".toList (skipSpaces r3)
  let r5 ← expectChar '=' (skipSpaces r4)
  let (w, r6) ← readNat (skipSpaces r5)
  let r7 ← matchLit "height".toList (skipSpaces r6)
  let r8 ← expectChar '=' (skipSpaces r7)
  let (hgt, r9) ← readNat (skipSpaces r8)
  let _ ← expectChar '}' (skipSpaces r9)
  pure { width := w, height := hgt }

/-- `size\s*=\s*\{\s*(\d+)\s+(\d+)\s*\}` -/
def sizeSimpleAt (s : Str) : Option Size := do
  let r1 ← matchLit "size".toList s
  let r2 ← expectChar '=' (skipSpaces r1)
  let r3 ← expectChar '{' (skipSpaces r2)
  let (w, r4) ← readNat (skipSpaces r3)
  match r4 with
  | c :: _ =>
    if pySpace c then do
      let (hgt, r5) ← readNat (skipSpaces r4)
      let _ ← expectChar '}' (skipSpaces r5)
      pure { width := w, height := hgt }
    else none
  | [] => none

/-- `HOI4GUIParser._extract_size`: named form, then bare form, else absent
(callers apply type-specific fallbacks). -/
def extractSize (s : Str) : Option Size :=
  match findMap sizeNamedAt s with
  | some z => some z
  | none => findMap sizeSimpleAt s

/-- Decimal rendering of a Python `int` (for the f-string dedup key). -/
def intStr (i : Int) : Str :=
  if i < 0 then '-' :: Nat.toDigits 10 i.natAbs else Nat.toDigits 10 i.toNat

/-- One entry of `nested_elements`: raw content plus its element tag. -/
structure NestedElem where
  content : Str
  etype : Str
deriving DecidableEq, Repr

/-- `gui_previewer.ScriptedGUIDefinition`.  `animation_time` keeps the
matched numeric literal (its converted value is never read downstream,
only its presence). -/
structure ScriptedGUIDefinition where
  name : Str
  window_name : Str
  parent_window_name : Option Str := none
  context_type : Option Str := none
  visible_condition : Option Str := none
  triggers : Option (List (Str × Str)) := none
  effects : Option (List (Str × Str)) := none
  properties : Option (List (Str × List (Str × Str))) := none
  ai_enabled : Option Str := none
  dirty : Option Str := none
  moveable : Option Bool := none
  resizable : Option Bool := none
  orientation : Option Str := none
  animation_type : Option Str := none
  animation_time : Option Str := none
  upsound : Option Str := none
  downsound : Option Str := none
  horizontalScrollbar : Option Str := none
  verticalScrollbar : Option Str := none
  smooth_scrolling : Option Bool := none
  keyframe : Option (List (Str × Str)) := none
  input_handler : Option (List (Str × Str)) := none
  scope_conditions : Option (List (Str × Str)) := none
  dynamic_lists : Option (List (Str × Str)) := none
  nested_elements : Option (List (Str × List (Str × NestedElem))) := none
deriving DecidableEq, Repr

/-- The free-form dict built by `_create_scripted_data_dict`; a key is
present exactly when the corresponding guard in the source fires. -/
structure ScriptedData where
  ai_enabled : Option Str := none
  dirty : Option Str := none
  moveable : Option Bool := none
  orientation : Option Str := none
  animation_type : Option Str := none
  animation_time : Option Str := none
  upsound : Option Str := none
  downsound : Option Str := none
  keyframe : Option (List (Str × Str)) := none
  input_handler : Option (List (Str × Str)) := none
  scope_conditions : Option (List (Str × Str)) := none
  dynamic_lists : Option (List (Str × Str)) := none
  nested_elements : Option (List (Str × List (Str × NestedElem))) := none
deriving DecidableEq, Repr

/-- Python truthiness for an optional string field (`if d.field:`). -/
def optTruthyStr (v : Option Str) : Option Str :=
  match v with
  | some s => if s.isEmpty then none else some s
  | none => none

/-- Python truthiness for an optional dict field. -/
def optTruthyList {α : Type} (v : Option (List α)) : Option (List α) :=
  match v with
  | some l => if l.isEmpty then none else some l
  | none => none

/-- `HOI4GUIParser._create_scripted_data_dict`.  `moveable` and
`animation_time` use `is not None`; the other fields use truthiness. -/
def mkScriptedData (d : ScriptedGUIDefinition) : ScriptedData :=
  { ai_enabled := optTruthyStr d.ai_enabled
    dirty := optTruthyStr d.dirty
    moveable := d.moveable
    orientation := optTruthyStr d.orientation
    animation_type := optTruthyStr d.animation_type
    animation_time := d.animation_time
    upsound := optTruthyStr d.upsound
    downsound := optTruthyStr d.downsound
    keyframe := optTruthyList d.keyframe
    input_handler := optTruthyList d.input_handler
    scope_conditions := optTruthyList d.scope_conditions
    dynamic_lists := optTruthyList d.dynamic_lists
    nested_elements := optTruthyList d.nested_elements }

/-- `gui_previewer.GUIElement`.  The purely visual styling fields that no
verified property reads (`sprite_type`, `text`, `font`, `orientation`,
`origo`, `margin`, `clipping`, `button_text`, `button_font`, `max_width`,
`max_height`, `format_align`) are omitted; everything that the dedup key,
the canvas-size rule or the Dynamic-Binding Merger observes is kept. -/
structure GUIElement where
  name : Str
  element_type : Str
  position : Position
  size : Option Size := none
  properties : Option (List (Str × List (Str × Str))) := none
  visible_condition : Option Str := none
  click_effect : Option Str := none
  is_dynamic : Bool := false
  scripted_data : Option ScriptedData := none
deriving DecidableEq, Repr

/-- `_get_element_key`: the f-string `f"{type}:{name}:{x}:{y}"`. -/
def elementKey (e : GUIElement) : Str :=
  e.element_type ++ ':' :: e.name ++ ':' :: intStr e.position.x ++ ':' :: intStr e.position.y

def containerTag : Str := "containerWindowType".toList
def windowTag : Str := "windowType".toList
def iconTag : Str := "iconType".toList
def buttonTag : Str := "buttonType".toList
def textBoxTag : Str := "instantTextBoxType".toList
def textBoxTagCI : Str := "instantTextboxType".toList
def checkboxTag : Str := "checkboxType".toList
def scrollbarTag : Str := "scrollbarType".toList
def gridboxTag : Str := "gridBoxType".toList
def listboxTag : Str := "listboxType".toList
def editboxTag : Str := "editboxType".toList

/-- `_parse_container_window_element` (background sprite, orientation,
origo, margin and clipping are extracted by the source but belong to the
omitted styling fields). -/
def parseContainerWindowElement (c : Str) : Option GUIElement :=
  match getTruthy (hoi4ExtractProperty "name".toList c) with
  | some n =>
    some { name := n, element_type := containerTag, position := extractPosition c
           size := extractSize c }
  | none => none

/-- `_parse_window_element`. -/
def parseWindowElement (c : Str) : Option GUIElement :=
  match getTruthy (hoi4ExtractProperty "name".toList c) with
  | some n =>
    some { name := n, element_type := windowTag, position := extractPosition c
           size := extractSize c }
  | none => none

/-- `_parse_icon_element` (no size on icons). -/
def parseIconElement (c : Str) : Option GUIElement :=
  match getTruthy (hoi4ExtractProperty "name".toList c) with
  | some n => some { name := n, element_type := iconTag, position := extractPosition c }
  | none => none

/-- `_parse_button_element`. -/
def parseButtonElement (c : Str) : Option GUIElement :=
  match getTruthy (hoi4ExtractProperty "name".toList c) with
  | some n =>
    some { name := n, element_type := buttonTag, position := extractPosition c
           size := extractSize c }
  | none => none

/-- `_parse_text_box_element` (no size). -/
def parseTextBoxElement (c : Str) : Option GUIElement :=
  match getTruthy (hoi4ExtractProperty "name".toList c) with
  | some n => some { name := n, element_type := textBoxTag, position := extractPosition c }
  | none => none

/-- `_parse_checkbox_element` (fixed 24x24). -/
def parseCheckboxElement (c : Str) : Option GUIElement :=
  match getTruthy (hoi4ExtractProperty "name".toList c) with
  | some n =>
    some { name := n, element_type := checkboxTag, position := extractPosition c
           size := some { width := 24, height := 24 } }
  | none => none

/-- `_parse_scrollbar_element` (default 20x200). -/
def parseScrollbarElement (c : Str) : Option GUIElement :=
  match getTruthy (hoi4ExtractProperty "name".toList c) with
  | some n =>
    some { name := n, element_type := scrollbarTag, position := extractPosition c
           size := some ((extractSize c).getD { width := 20, height := 200 }) }
  | none => none

/-- `_parse_gridbox_element` (default 300x200). -/
def parseGridboxElement (c : Str) : Option GUIElement :=
  match getTruthy (hoi4ExtractProperty "name".toList c) with
  | some n =>
    some { name := n, element_type := gridboxTag, position := extractPosition c
           size := some ((extractSize c).getD { width := 300, height := 200 }) }
  | none => none

/-- `_parse_listbox_element` (default 200x100). -/
def parseListboxElement (c : Str) : Option GUIElement :=
  match getTruthy (hoi4ExtractProperty "name".toList c) with
  | some n =>
    some { name := n, element_type := listboxTag, position := extractPosition c
           size := some ((extractSize c).getD { width := 200, height := 100 }) }
  | none => none

/-- `_parse_editbox_element` (default 150x25; the text field is styling). -/
def parseEditboxElement (c : Str) : Option GUIElement :=
  match getTruthy (hoi4ExtractProperty "name".toList c) with
  | some n =>
    some { name := n, element_type := editboxTag, position := extractPosition c
           size := some ((extractSize c).getD { width := 150, height := 25 }) }
  | none => none

/-- The mutable accumulation state of one `HOI4GUIParser` parse pass:
`self.elements`, `self.parsed_elements`, `self.window_size`. -/
structure ParseSt where
  elements : List GUIElement
  parsedKeys : List Str
  windowSize : Size
deriving DecidableEq, Repr

/-- The guarded append+mark used by `_parse_nested_elements` for icons,
buttons and text boxes (`if element and not self._is_duplicate(element)`). -/
def guardedStep (parse : Str → Option GUIElement) (acc : ParseSt) (b : Str) : ParseSt :=
  match parse b with
  | some e =>
    if elementKey e ∈ acc.parsedKeys then acc
    else { acc with elements := acc.elements ++ [e]
                    parsedKeys := elementKey e :: acc.parsedKeys }
  | none => acc

def parseGuardedList (parse : Str → Option GUIElement) (blocks : List Str)
    (st : ParseSt) : ParseSt :=
  blocks.foldl (guardedStep parse) st

/-- The guarded icon/button/text-box part of `_parse_nested_elements`
(everything after the nested-container loop). -/
def parseNestedSimples (content : Str) (st : ParseSt) : ParseSt :=
  let st2 := parseGuardedList parseIconElement (extractBlockContent iconTag content) st
  let st3 := parseGuardedList parseButtonElement (extractBlockContent buttonTag content) st2
  parseGuardedList parseTextBoxElement (extractBlockContentCI textBoxTagCI content) st3

/-- The pending work of `_parse_nested_elements`, as an explicit stack so
that the nested recursion is structural in a fuel counter:
`.nested c` is one call `_parse_nested_elements(c)`, `.containers bs` the
remainder of its guarded container loop, `.simples c` its trailing guarded
icon/button/text-box passes. -/
inductive NestedTask where
  | nested (content : Str)
  | containers (blocks : List Str)
  | simples (content : Str)

/-- `_parse_nested_elements`: nested containers (guarded, recursing only
into freshly appended ones), then nested icons, buttons and (case
insensitive) text boxes, all guarded, none touching the window size. -/
def parseNestedGo : Nat → List NestedTask → ParseSt → ParseSt
  | 0, _, st => st
  | _ + 1, [], st => st
  | fuel + 1, task :: stack, st =>
    match task with
    | .nested content =>
      parseNestedGo fuel
        (.containers (extractBlockContent containerTag content) :: .simples content :: stack) st
    | .containers [] => parseNestedGo fuel stack st
    | .containers (b :: bs) =>
      match parseContainerWindowElement b with
      | some e =>
        if elementKey e ∈ st.parsedKeys then parseNestedGo fuel (.containers bs :: stack) st
        else
          parseNestedGo fuel (.nested b :: .containers bs :: stack)
            { st with elements := st.elements ++ [e]
                      parsedKeys := elementKey e :: st.parsedKeys }
      | none => parseNestedGo fuel (.containers bs :: stack) st
    | .simples content => parseNestedGo fuel stack (parseNestedSimples content st)

/-- Fuel that the task stack of one `_parse_nested_elements(content)` call
can never exhaust: every source position can contribute at most a bounded
number of steps. -/
def nestedFuel (content : Str) : Nat :=
  (content.length + 2) * (content.length + 2)

def parseNestedElements (content : Str) (st : ParseSt) : ParseSt :=
  parseNestedGo (nestedFuel content) [.nested content] st

/-- `_parse_container_window_types`: guarded append of each top-level
container, window-size update when it becomes the single element of the
pass, then the nested parse of its content (run for every container,
appended or not).  The nested recursion depth inside a block is bounded by
its length, so `b.length + 1` fuel is never exhausted. -/
def containerStep (acc : ParseSt) (b : Str) : ParseSt :=
  let acc1 :=
    match parseContainerWindowElement b with
    | some e =>
      if elementKey e ∈ acc.parsedKeys then acc
      else
        let acc' := { acc with elements := acc.elements ++ [e]
                               parsedKeys := elementKey e :: acc.parsedKeys }
        if acc'.elements.length = 1 then
          match e.size with
          | some z => { acc' with windowSize := z }
          | none => acc'
        else acc'
    | none => acc
  parseNestedElements b acc1

def parseContainerWindowTypes (content : Str) (st : ParseSt) : ParseSt :=
  (extractBlockContent containerTag content).foldl containerStep st

/-- `_parse_window_types`: depth-one regex findall, unguarded appends,
window-size update when the window becomes the single element. -/
def windowStep (acc : ParseSt) (g : Str) : ParseSt :=
  match parseWindowElement g with
  | some e =>
    let acc' := { acc with elements := acc.elements ++ [e] }
    if acc'.elements.length = 1 then
      match e.size with
      | some z => { acc' with windowSize := z }
      | none => acc'
    else acc'
  | none => acc

def parseWindowTypes (content : Str) (st : ParseSt) : ParseSt :=
  (findAllDepth1 windowTag content).foldl windowStep st

/-- The unguarded simple-type loops
(`_parse_checkbox_types` and friends): depth-one regex findall, plain
appends, no dedup, no window-size update. -/
def simpleStep (parse : Str → Option GUIElement) (acc : ParseSt) (g : Str) : ParseSt :=
  match parse g with
  | some e => { acc with elements := acc.elements ++ [e] }
  | none => acc

def parseSimpleTypes (tag : Str) (parse : Str → Option GUIElement)
    (content : Str) (st : ParseSt) : ParseSt :=
  (findAllDepth1 tag content).foldl (simpleStep parse) st

/-- `_parse_top_level_elements`. -/
def parseTopLevelElements (content : Str) (st : ParseSt) : ParseSt :=
  let st1 := parseWindowTypes content st
  let st2 := parseSimpleTypes checkboxTag parseCheckboxElement content st1
  let st3 := parseSimpleTypes scrollbarTag parseScrollbarElement content st2
  let st4 := parseSimpleTypes gridboxTag parseGridboxElement content st3
  let st5 := parseSimpleTypes listboxTag parseListboxElement content st4
  parseSimpleTypes editboxTag parseEditboxElement content st5

/-- `_parse_elements`: reset the dedup set, then containers, then the
top-level simple types. -/
def parseElements (content : Str) (st : ParseSt) : ParseSt :=
  let st0 := { st with parsedKeys := [] }
  parseTopLevelElements content (parseContainerWindowTypes content st0)

/-- The window-name-indexed dict built by `set_scripted_gui_data`
(a Python dict: assignment keeps the first position of a key but replaces
its value). -/
def dictInsert {α : Type} (m : List (Str × α)) (k : Str) (v : α) : List (Str × α) :=
  match m with
  | [] => [(k, v)]
  | (k', v') :: t => if k' = k then (k', v) :: t else (k', v') :: dictInsert t k v

def dictLookup {α : Type} (m : List (Str × α)) (k : Str) : Option α :=
  match m with
  | [] => none
  | (k', v') :: t => if k' = k then some v' else dictLookup t k

def dictValues {α : Type} (m : List (Str × α)) : List α := m.map Prod.snd

/-- `HOI4GUIParser.set_scripted_gui_data`: index the definitions by
`window_name`, last one wins on collision. -/
def setScriptedGuiData (defs : List ScriptedGUIDefinition) :
    List (Str × ScriptedGUIDefinition) :=
  defs.foldl (fun m d => dictInsert m d.window_name d) []

/-- `dict.update` of Python: entries of `new` replace entries of `old`. -/
def pyDictUpdate {α : Type} (old new : List (Str × α)) : List (Str × α) :=
  new.foldl (fun m p => dictInsert m p.1 p.2) old

/-- The trigger/effect scan of `_apply_scripted_gui_data` for
`buttonType` / `iconType` / `instantTextBoxType` elements: walk the dict
values; inside one definition first probe the trigger-name patterns, then
(if nothing matched) the effect-name patterns; stop at the first definition
producing any match and attach its metadata. -/
def applyScriptedScanButtons (vals : List ScriptedGUIDefinition) (e : GUIElement) :
    GUIElement :=
  match vals with
  | [] => e
  | d :: rest =>
    let triggerPatterns := [e.name ++ "_click_enabled".toList, e.name ++ "_visible".toList,
      e.name ++ "_visible".toList, e.name ++ "_click_enabled".toList]
    let trigHit :=
      match optTruthyList d.triggers with
      | some trigs => triggerPatterns.find? (fun p => (dictLookup trigs p).isSome)
      | none => none
    match trigHit with
    | some p =>
      match d.triggers with
      | some trigs =>
        match dictLookup trigs p with
        | some cond =>
          { e with visible_condition := some cond, is_dynamic := true
                   scripted_data := some (mkScriptedData d) }
        | none => e
      | none => e
    | none =>
      let clickPatterns := [e.name ++ "_click".toList, e.name ++ "_click".toList]
      let effHit :=
        match optTruthyList d.effects with
        | some effs => clickPatterns.find? (fun p => (dictLookup effs p).isSome)
        | none => none
      match effHit with
      | some p =>
        match d.effects with
        | some effs =>
          match dictLookup effs p with
          | some act =>
            { e with click_effect := some act, is_dynamic := true
                     scripted_data := some (mkScriptedData d) }
          | none => e
        | none => e
      | none => applyScriptedScanButtons rest e

/-- Per-element body of `_apply_scripted_gui_data`. -/
def applyScriptedOne (dict : List (Str × ScriptedGUIDefinition)) (e : GUIElement) :
    GUIElement :=
  if e.element_type = containerTag then
    let e1 :=
      match dictLookup dict e.name with
      | some d =>
        let e' := { e with visible_condition := d.visible_condition, is_dynamic := true
                           scripted_data := some (mkScriptedData d) }
        match optTruthyList d.properties with
        | some ps => { e' with properties := some (pyDictUpdate (e'.properties.getD []) ps) }
        | none => e'
      | none => e
    match (dictValues dict).find? (fun d => d.window_name = e.name) with
    | some d =>
      { e1 with visible_condition := d.visible_condition, is_dynamic := true
                scripted_data := some (mkScriptedData d) }
    | none => e1
  else if e.element_type = buttonTag ∨ e.element_type = iconTag ∨
      e.element_type = textBoxTag then
    applyScriptedScanButtons (dictValues dict) e
  else e

/-- `_apply_scripted_gui_data` (early return when no scripted data is set). -/
def applyScriptedGuiData (dict : List (Str × ScriptedGUIDefinition))
    (elems : List GUIElement) : List GUIElement :=
  if dict.isEmpty then elems else elems.map (applyScriptedOne dict)

/-- The input that `parse_file` observes about a path: the file may be
missing, undecodable in both supported encodings (with the exception detail
interpolated into the message), or may decode to some text. -/
inductive FileInput where
  | missing
  | undecodable (detail : Str)
  | text (s : Str)
deriving DecidableEq, Repr

/-- The persistent fields of one `HOI4GUIParser` instance. -/
structure HOI4Parser where
  elements : List GUIElement := []
  windowSize : Size := { width := 800, height := 600 }
  scriptedGuiData : List (Str × ScriptedGUIDefinition) := []
  parseErrors : List Str := []
deriving DecidableEq, Repr

def hoi4Init : HOI4Parser := {}

/-- `HOI4GUIParser.parse_file`, returning the updated instance state and the
returned element list.  Failure branches append one error and return `[]`
without touching `self.elements` or `self.window_size`; the success branch
rebuilds `self.elements`, merges the stored scripted data into it, and keeps
whatever `self.window_size` the element pass produced. -/
def hoi4ParseFile (p : HOI4Parser) (path : Str) (input : FileInput) :
    HOI4Parser × List GUIElement :=
  match input with
  | .missing => ({ p with parseErrors := ["File not found: ".toList ++ path] }, [])
  | .undecodable detail =>
    ({ p with parseErrors := ["File encoding error: ".toList ++ detail] }, [])
  | .text s =>
    if (pyStrip s).isEmpty then ({ p with parseErrors := ["File is empty.".toList] }, [])
    else
      let s1 := removeComments s
      match rootBlock "guiTypes".toList s1 with
      | none =>
        ({ p with parseErrors :=
            [("guiTypes block not found. " ++
              "Please check if this is a valid HOI4 GUI file.").toList] }, [])
      | some inner =>
        let st := parseElements inner
          { elements := [], parsedKeys := [], windowSize := p.windowSize }
        let elems := applyScriptedGuiData p.scriptedGuiData st.elements
        ({ p with parseErrors := [], elements := elems, windowSize := st.windowSize },
         elems)

/-- Python `\w` (ASCII model, as in the identifiers of these files). -/
def isWordChar (c : Char) : Bool := c.isAlphanum || c = '_'

/-- `ScriptedGUIParser._extract_block_property`: the single-level pattern
`prop\s*=\s*\{([^}]*)\}` (DOTALL), `.strip()`-ed — deliberately NOT
nesting-aware. -/
def blockPropAt (prop s : Str) : Option Str := do
  let r1 ← matchLit prop s
  let r2 ← expectChar '=' (skipSpaces r1)
  let r3 ← expectChar '{' (skipSpaces r2)
  let grp := r3.takeWhile (fun c => ¬(c = '}'))
  match r3.drop grp.length with
  | '}' :: _ => some grp
  | _ => none

def extractBlockProperty (prop s : Str) : Option Str :=
  (findMap (blockPropAt prop) s).map pyStrip

/-- Position matcher for `(\w+)\s*=\s*\{` followed by a depth-one body
(`(\w+)\s*=\s*\{([^{}]*(?:\{[^{}]*\}[^{}]*)*)\}`): used by the trigger and
effect passes.  Returns `((name, body), rest-after-close)`. -/
def kvDepth1At (s : Str) : Option ((Str × Str) × Str) :=
  let w := s.takeWhile isWordChar
  if w.isEmpty then none
  else
    match skipSpaces (s.drop w.length) with
    | '=' :: r2 =>
      match skipSpaces r2 with
      | '{' :: r3 =>
        match depth1Scan r3 false with
        | some (body, rest) => some ((w, body), rest)
        | none => none
      | _ => none
    | _ => none

theorem kvDepth1At_length_lt (s : Str) (nb : Str × Str) (r : Str)
    (h : kvDepth1At s = some (nb, r)) : r.length < s.length := by
  simp only [kvDepth1At] at h
  split at h
  · simp at h
  · rename_i hw
    split at h
    · rename_i r2 h2
      split at h
      · rename_i r3 h3
        split at h
        · rename_i body rest h4
          obtain ⟨h5, h6⟩ := Prod.mk.injEq .. ▸ (Option.some.injEq .. ▸ h)
          subst h6
          have hwlen : 1 ≤ (s.takeWhile isWordChar).length := by
            rcases Nat.eq_zero_or_pos (s.takeWhile isWordChar).length with hz | hp
            · exact absurd (List.isEmpty_iff.mpr (List.length_eq_zero.mp hz)) (by simpa using hw)
            · exact hp
          have hd : (s.drop (s.takeWhile isWordChar).length).length ≤
              s.length - (s.takeWhile isWordChar).length := by simp
          have htw : (s.takeWhile isWordChar).length ≤ s.length :=
            (List.takeWhile_sublist (l := s) (p := isWordChar)).length_le
          have e2 : ('=' :: r2).length ≤ (s.drop (s.takeWhile isWordChar).length).length :=
            h2 ▸ skipSpaces_length_le _
          have e3 : ('{' :: r3).length ≤ r2.length := h3 ▸ skipSpaces_length_le r2
          have e4 := depth1Scan_length r3 false body rest h4
          simp only [List.length_cons] at e2 e3
          omega
        · simp at h
      · simp at h
    · simp at h

/-- `re.finditer` of the depth-one key/value pattern: leftmost,
non-overlapping; a failed start advances one character. -/
def kvDepth1Step (s : Str) : ScanStep (Str × Str) :=
  match kvDepth1At s with
  | some (nb, rest) => .yield nb rest
  | none => .skip

theorem kvDepth1Step_dec : DecreasingStep kvDepth1Step := by
  intro s x r h
  unfold kvDepth1Step at h
  split at h
  · rename_i nb rest h1
    obtain ⟨h3, h4⟩ := ScanStep.yield.injEq .. ▸ h
    subst h4
    exact kvDepth1At_length_lt _ _ _ h1
  · simp at h

def findAllKVDepth1 (s : Str) : List (Str × Str) :=
  scanAll kvDepth1Step s

/-- Position matcher for the flat pattern `(\w+)\s*=\s*\{([^{}]+)\}`
(the "simple key-value" fallback pass of the trigger/effect extraction). -/
def kvFlatAt (s : Str) : Option ((Str × Str) × Str) :=
  let w := s.takeWhile isWordChar
  if w.isEmpty then none
  else
    match skipSpaces (s.drop w.length) with
    | '=' :: r2 =>
      match skipSpaces r2 with
      | '{' :: r3 =>
        let body := r3.takeWhile (fun c => ¬(c = '{' ∨ c = '}'))
        if body.isEmpty then none
        else
          match r3.drop body.length with
          | '}' :: rest => some ((w, body), rest)
          | _ => none
      | _ => none
    | _ => none

theorem kvFlatAt_length_lt (s : Str) (nb : Str × Str) (r : Str)
    (h : kvFlatAt s = some (nb, r)) : r.length < s.length := by
  simp only [kvFlatAt] at h
  split at h
  · simp at h
  · rename_i hw
    split at h
    · rename_i r2 h2
      split at h
      · rename_i r3 h3
        split at h
        · simp at h
        · split at h
          · rename_i rest h4
            obtain ⟨h5, h6⟩ := Prod.mk.injEq .. ▸ (Option.some.injEq .. ▸ h)
            subst h6
            have e2 : ('=' :: r2).length ≤ (s.drop (s.takeWhile isWordChar).length).length :=
              h2 ▸ skipSpaces_length_le _
            have e3 : ('{' :: r3).length ≤ r2.length := h3 ▸ skipSpaces_length_le r2
            have e4 : ('}' :: rest).length ≤ r3.length := by
              have : r3.drop (r3.takeWhile (fun c => ¬(c = '{' ∨ c = '}'))).length =
                  '}' :: rest := h4
              calc ('}' :: rest).length =
                  (r3.drop (r3.takeWhile (fun c => ¬(c = '{' ∨ c = '}'))).length).length := by
                    rw [this]
                _ ≤ r3.length := by simp
            have hd : (s.drop (s.takeWhile isWordChar).length).length ≤ s.length := by simp
            simp only [List.length_cons] at e2 e3 e4
            omega
          · simp at h
      · simp at h
    · simp at h

def kvFlatStep (s : Str) : ScanStep (Str × Str) :=
  match kvFlatAt s with
  | some (nb, rest) => .yield nb rest
  | none => .skip

theorem kvFlatStep_dec : DecreasingStep kvFlatStep := by
  intro s x r h
  unfold kvFlatStep at h
  split at h
  · rename_i nb rest h1
    obtain ⟨h3, h4⟩ := ScanStep.yield.injEq .. ▸ h
    subst h4
    exact kvFlatAt_length_lt _ _ _ h1
  · simp at h

def findAllKVFlat (s : Str) : List (Str × Str) :=
  scanAll kvFlatStep s

/-- `_extract_triggers` / `_extract_effects`: take the first `triggers` /
`effects` block, collect the depth-one-tolerant pass, then supplement (never
override) with the flat pass. -/
def extractTriggerMap (blockTag : Str) (content : Str) : Option (List (Str × Str)) :=
  match extractBlockContent blockTag content with
  | [] => none
  | tc :: _ =>
    let pass1 := (findAllKVDepth1 tc).foldl (fun m nb => dictInsert m nb.1 (pyStrip nb.2)) []
    let both := (findAllKVFlat tc).foldl
      (fun m nb => if (dictLookup m nb.1).isSome then m else dictInsert m nb.1 (pyStrip nb.2))
      pass1
    if both.isEmpty then none else some both


/-- Consume the optional quote `["\']?` (greedy: taken when present). -/
def dropOptQuote (s : Str) : Str :=
  match s with
  | c :: t => if quoteChar c then t else c :: t
  | [] => []

theorem dropOptQuote_length_le (s : Str) : (dropOptQuote s).length ≤ s.length := by
  unfold dropOptQuote
  split
  · split <;> simp
  · simp

/-- Position matcher for the inner pair pattern of `_extract_properties`:
`(\w+)\s*=\s*["\']?([^"\'}\s]+)["\']?` (the captured value is stored
without stripping). -/
def innerKVAt (s : Str) : Option ((Str × Str) × Str) :=
  if (s.takeWhile isWordChar).isEmpty then none
  else
    match skipSpaces (s.drop (s.takeWhile isWordChar).length) with
    | '=' :: r2 =>
      match dropOptQuote (skipSpaces r2) with
      | r4 =>
        if (r4.takeWhile (fun c => ¬(quoteChar c ∨ c = '}' ∨ pySpace c))).isEmpty then none
        else
          some ((s.takeWhile isWordChar,
                 r4.takeWhile (fun c => ¬(quoteChar c ∨ c = '}' ∨ pySpace c))),
                dropOptQuote (r4.drop
                  (r4.takeWhile (fun c => ¬(quoteChar c ∨ c = '}' ∨ pySpace c))).length))
    | _ => none

theorem innerKVAt_length_lt (s : Str) (nb : Str × Str) (r : Str)
    (h : innerKVAt s = some (nb, r)) : r.length < s.length := by
  unfold innerKVAt at h
  split at h
  · simp at h
  · split at h
    · rename_i r2 h2
      dsimp only at h
      split at h
      · simp at h
      · rename_i hv
        obtain ⟨h5, h6⟩ := Prod.mk.injEq .. ▸ (Option.some.injEq .. ▸ h)
        have hvlen : 1 ≤ ((dropOptQuote (skipSpaces r2)).takeWhile
            (fun c => ¬(quoteChar c ∨ c = '}' ∨ pySpace c))).length := by
          rcases Nat.eq_zero_or_pos ((dropOptQuote (skipSpaces r2)).takeWhile
              (fun c => ¬(quoteChar c ∨ c = '}' ∨ pySpace c))).length with hz | hp
          · exact absurd (List.isEmpty_iff.mpr (List.length_eq_zero.mp hz)) (by simpa using hv)
          · exact hp
        have e2 : ('=' :: r2).length ≤ (s.drop (s.takeWhile isWordChar).length).length :=
          h2 ▸ skipSpaces_length_le _
        have e3 : (dropOptQuote (skipSpaces r2)).length ≤ r2.length :=
          Nat.le_trans (dropOptQuote_length_le _) (skipSpaces_length_le r2)
        have e4 : r.length ≤ (dropOptQuote (skipSpaces r2)).length -
            ((dropOptQuote (skipSpaces r2)).takeWhile
              (fun c => ¬(quoteChar c ∨ c = '}' ∨ pySpace c))).length := by
          rw [← h6]
          calc (dropOptQuote ((dropOptQuote (skipSpaces r2)).drop
              ((dropOptQuote (skipSpaces r2)).takeWhile
                (fun c => ¬(quoteChar c ∨ c = '}' ∨ pySpace c))).length)).length ≤
              ((dropOptQuote (skipSpaces r2)).drop
                ((dropOptQuote (skipSpaces r2)).takeWhile
                  (fun c => ¬(quoteChar c ∨ c = '}' ∨ pySpace c))).length).length :=
                dropOptQuote_length_le _
            _ = _ := by simp
        have e5 : (s.drop (s.takeWhile isWordChar).length).length ≤ s.length := by simp
        simp only [List.length_cons] at e2
        omega
    · simp at h

def innerKVStep (s : Str) : ScanStep (Str × Str) :=
  match innerKVAt s with
  | some (nb, rest) => .yield nb rest
  | none => .skip

theorem innerKVStep_dec : DecreasingStep innerKVStep := by
  intro s x r h
  unfold innerKVStep at h
  split at h
  · rename_i nb rest h1
    obtain ⟨h3, h4⟩ := ScanStep.yield.injEq .. ▸ h
    subst h4
    exact innerKVAt_length_lt _ _ _ h1
  · simp at h

def findAllInnerKV (s : Str) : List (Str × Str) :=
  scanAll innerKVStep s

/-- Position matcher for the outer pair pattern of `_extract_properties`:
`(\w+)\s*=\s*\{([^{}]*)\}` — flat, possibly-empty body. -/
def kvFlatEmptyAt (s : Str) : Option ((Str × Str) × Str) :=
  if (s.takeWhile isWordChar).isEmpty then none
  else
    match skipSpaces (s.drop (s.takeWhile isWordChar).length) with
    | '=' :: r2 =>
      match skipSpaces r2 with
      | '{' :: r3 =>
        match r3.drop (r3.takeWhile (fun c => ¬(c = '{' ∨ c = '}'))).length with
        | '}' :: rest =>
          some ((s.takeWhile isWordChar, r3.takeWhile (fun c => ¬(c = '{' ∨ c = '}'))), rest)
        | _ => none
      | _ => none
    | _ => none

theorem kvFlatEmptyAt_length_lt (s : Str) (nb : Str × Str) (r : Str)
    (h : kvFlatEmptyAt s = some (nb, r)) : r.length < s.length := by
  unfold kvFlatEmptyAt at h
  split at h
  · simp at h
  · split at h
    · rename_i r2 h2
      split at h
      · rename_i r3 h3
        split at h
        · rename_i rest h4
          obtain ⟨h5, h6⟩ := Prod.mk.injEq .. ▸ (Option.some.injEq .. ▸ h)
          have e2 : ('=' :: r2).length ≤ (s.drop (s.takeWhile isWordChar).length).length :=
            h2 ▸ skipSpaces_length_le _
          have e3 : ('{' :: r3).length ≤ r2.length := h3 ▸ skipSpaces_length_le r2
          have e4 : ('}' :: rest).length ≤ r3.length := by
            calc ('}' :: rest).length =
                (r3.drop (r3.takeWhile (fun c => ¬(c = '{' ∨ c = '}'))).length).length := by
                  rw [h4]
              _ ≤ r3.length := by simp
          have e5 : (s.drop (s.takeWhile isWordChar).length).length ≤ s.length := by simp
          have e6 : r.length = rest.length := by rw [← h6]
          simp only [List.length_cons] at e2 e3 e4
          omega
        · simp at h
      · simp at h
    · simp at h

def kvFlatEmptyStep (s : Str) : ScanStep (Str × Str) :=
  match kvFlatEmptyAt s with
  | some (nb, rest) => .yield nb rest
  | none => .skip

theorem kvFlatEmptyStep_dec : DecreasingStep kvFlatEmptyStep := by
  intro s x r h
  unfold kvFlatEmptyStep at h
  split at h
  · rename_i nb rest h1
    obtain ⟨h3, h4⟩ := ScanStep.yield.injEq .. ▸ h
    subst h4
    exact kvFlatEmptyAt_length_lt _ _ _ h1
  · simp at h

def findAllKVFlatEmpty (s : Str) : List (Str × Str) :=
  scanAll kvFlatEmptyStep s

/-- `_extract_properties`: the single-level `properties` block, one map per
element name, each body parsed as flat key/value pairs. -/
def extractProperties (content : Str) : Option (List (Str × List (Str × Str))) :=
  match getTruthy (extractBlockProperty "properties".toList content) with
  | none => none
  | some pc =>
    let props := (findAllKVFlatEmpty pc).foldl
      (fun m nb => dictInsert m nb.1 ((findAllInnerKV (pyStrip nb.2)).foldl
        (fun im kv => dictInsert im kv.1 kv.2) []))
      []
    if props.isEmpty then none else some props

/-- One line of `_extract_keyframe_animations`: strip, skip comment lines
and lines without `=`, split on the first `=`. -/
def keyframeLine (m : List (Str × Str)) (line : Str) : List (Str × Str) :=
  if (pyStrip line).contains '=' ∧ ¬((pyStrip line).head? = some '#') then
    dictInsert m (pyStrip ((pyStrip line).takeWhile (fun c => ¬(c = '='))))
      (pyStrip (((pyStrip line).dropWhile (fun c => ¬(c = '='))).drop 1))
  else m

/-- `_extract_keyframe_animations`: every `keyframe = { ... }` block,
flattened line-wise into one map (later keys overwrite). -/
def extractKeyframeAnimations (content : Str) : Option (List (Str × Str)) :=
  let ks := (extractBlockContent "keyframe".toList content).foldl
    (fun m b => (b.splitOn '\n').foldl keyframeLine m) []
  if ks.isEmpty then none else some ks

def inputHandlerNames : List Str :=
  ["on_click".toList, "on_hover".toList, "on_focus".toList, "on_key_down".toList,
   "on_key_up".toList, "shortcut".toList, "clicksound".toList, "over_sound".toList,
   "on_text_changed".toList]

/-- `_extract_input_handlers`: probe the fixed handler names with the scalar
extractor, keeping truthy results. -/
def extractInputHandlers (content : Str) : Option (List (Str × Str)) :=
  let hs := inputHandlerNames.foldl
    (fun m p =>
      match getTruthy (scriptedExtractProperty p content) with
      | some v => dictInsert m p v
      | none => m)
    []
  if hs.isEmpty then none else some hs

def scopePatternNames : List Str :=
  ["THIS".toList, "ROOT".toList, "PREV".toList, "FROM".toList, "FROMFROM".toList,
   "scope_conditions".toList, "limit".toList, "any_of".toList, "all_of".toList,
   "has_variable".toList, "check_variable".toList, "is_valid".toList]

/-- `_extract_scope_conditions`: block form first, scalar fallback. -/
def extractScopeConditions (content : Str) : Option (List (Str × Str)) :=
  let cs := scopePatternNames.foldl
    (fun m p =>
      match getTruthy (extractBlockProperty p content) with
      | some v => dictInsert m p v
      | none =>
        match getTruthy (scriptedExtractProperty p content) with
        | some v => dictInsert m p v
        | none => m)
    []
  if cs.isEmpty then none else some cs

def dynamicListNames : List Str :=
  ["for_each".toList, "iterate".toList, "dynamic_list".toList, "list_entry".toList,
   "template".toList, "data_source".toList, "item_template".toList]

/-- `_extract_dynamic_lists`: block form only. -/
def extractDynamicLists (content : Str) : Option (List (Str × Str)) :=
  let ls := dynamicListNames.foldl
    (fun m p =>
      match getTruthy (extractBlockProperty p content) with
      | some v => dictInsert m p v
      | none => m)
    []
  if ls.isEmpty then none else some ls

def nestedElementTags : List Str :=
  ["containerWindowType".toList, "windowType".toList, "buttonType".toList,
   "iconType".toList, "instantTextBoxType".toList, "editBoxType".toList,
   "checkboxType".toList, "scrollbarType".toList, "listboxType".toList,
   "gridBoxType".toList, "positionType".toList]

/-- `_extract_nested_elements`: per tag, the brace-matched blocks keyed by
their own truthy `name` (else `{tag}_{index}`). -/
def extractNestedElements (content : Str) :
    Option (List (Str × List (Str × NestedElem))) :=
  let es := nestedElementTags.foldl
    (fun m tag =>
      match extractBlockContent tag content with
      | [] => m
      | blocks =>
        let inner := (blocks.enum.foldl
          (fun im bi =>
            match getTruthy (scriptedExtractProperty "name".toList bi.2) with
            | some n => dictInsert im n { content := bi.2, etype := tag }
            | none =>
              dictInsert im (tag ++ '_' :: Nat.toDigits 10 bi.1)
                { content := bi.2, etype := tag })
          [])
        m ++ [(tag, inner)])
    []
  if es.isEmpty then none else some es

/-- Position matcher for the generic definition opener `(\w+)\s*=\s*\{` of
`_extract_gui_definitions`. -/
def wordOpenAt (s : Str) : Option (Str × Str) :=
  if (s.takeWhile isWordChar).isEmpty then none
  else
    match skipSpaces (s.drop (s.takeWhile isWordChar).length) with
    | '=' :: r2 =>
      match skipSpaces r2 with
      | '{' :: r3 => some (s.takeWhile isWordChar, r3)
      | _ => none
    | _ => none

theorem wordOpenAt_length_lt (s : Str) (n r : Str)
    (h : wordOpenAt s = some (n, r)) : r.length < s.length := by
  unfold wordOpenAt at h
  split at h
  · simp at h
  · split at h
    · rename_i r2 h2
      split at h
      · rename_i r3 h3
        obtain ⟨h5, h6⟩ := Prod.mk.injEq .. ▸ (Option.some.injEq .. ▸ h)
        have e2 : ('=' :: r2).length ≤ (s.drop (s.takeWhile isWordChar).length).length :=
          h2 ▸ skipSpaces_length_le _
        have e3 : ('{' :: r3).length ≤ r2.length := h3 ▸ skipSpaces_length_le r2
        have e5 : (s.drop (s.takeWhile isWordChar).length).length ≤ s.length := by simp
        have e6 : r.length = r3.length := by rw [← h6]
        simp only [List.length_cons] at e2 e3
        omega
      · simp at h
    · simp at h

/-- `ScriptedGUIParser._extract_gui_definitions`: scan for generic
`name = {` openers, match braces fully; balanced blocks are stored in a dict
(`definitions[gui_name] = block_content`, replacement keeps the first
position of a repeated name); an unbalanced block ends the scan keeping the
definitions accumulated so far. -/
def guiDefStep (s : Str) : ScanStep (Str × Str) :=
  match wordOpenAt s with
  | none => .skip
  | some (n, after) =>
    match takeBalanced after 0 with
    | some (inner, rest) => .yield (n, inner) rest
    | none => .stop

theorem guiDefStep_dec : DecreasingStep guiDefStep := by
  intro s x r h
  unfold guiDefStep at h
  split at h
  · simp at h
  · rename_i n after h1
    split at h
    · rename_i inner rest h2
      obtain ⟨h3, h4⟩ := ScanStep.yield.injEq .. ▸ h
      subst h4
      exact Nat.lt_trans (takeBalanced_rest_lt _ _ _ _ h2) (wordOpenAt_length_lt _ _ _ h1)
    · simp at h

def extractGuiDefinitions (s : Str) : List (Str × Str) :=
  (scanAll guiDefStep s).foldl (fun m p => dictInsert m p.1 p.2) []

/-- `ScriptedGUIParser._parse_single_gui_definition`: discard candidates
without a truthy `window_name`, otherwise pull every field. -/
def parseSingleGuiDefinition (name content : Str) : Option ScriptedGUIDefinition :=
  match getTruthy (scriptedExtractProperty "window_name".toList content) with
  | none => none
  | some wn =>
    some
      { name := name
        window_name := wn
        parent_window_name := scriptedExtractProperty "parent_window_name".toList content
        context_type := scriptedExtractProperty "context_type".toList content
        visible_condition := extractBlockProperty "visible".toList content
        triggers := extractTriggerMap "triggers".toList content
        effects := extractTriggerMap "effects".toList content
        properties := extractProperties content
        ai_enabled := extractBlockProperty "ai_enabled".toList content
        dirty := scriptedExtractProperty "dirty".toList content
        moveable := extractBooleanProperty "moveable".toList content
        resizable := extractBooleanProperty "resizable".toList content
        orientation := scriptedExtractProperty "orientation".toList content
        animation_type := scriptedExtractProperty "animation_type".toList content
        animation_time := scriptedExtractNumericProperty "animation_time".toList content
        upsound := scriptedExtractProperty "upsound".toList content
        downsound := scriptedExtractProperty "downsound".toList content
        horizontalScrollbar := scriptedExtractProperty "horizontalScrollbar".toList content
        verticalScrollbar := scriptedExtractProperty "verticalScrollbar".toList content
        smooth_scrolling := extractBooleanProperty "smooth_scrolling".toList content
        keyframe := extractKeyframeAnimations content
        input_handler := extractInputHandlers content
        scope_conditions := extractScopeConditions content
        dynamic_lists := extractDynamicLists content
        nested_elements := extractNestedElements content }

/-- Persistent fields of one `ScriptedGUIParser` instance. -/
structure ScriptedParser where
  scriptedGuis : List ScriptedGUIDefinition := []
  parseErrors : List Str := []
deriving DecidableEq, Repr

def scriptedInit : ScriptedParser := {}

/-- `ScriptedGUIParser.parse_file`: same failure discipline as the GUI
parser, `scripted_gui` root block, then one definition per retained
candidate. -/
def scriptedParseFile (p : ScriptedParser) (path : Str) (input : FileInput) :
    ScriptedParser × List ScriptedGUIDefinition :=
  match input with
  | .missing => ({ p with parseErrors := ["File not found: ".toList ++ path] }, [])
  | .undecodable detail =>
    ({ p with parseErrors := ["File encoding error: ".toList ++ detail] }, [])
  | .text s =>
    if (pyStrip s).isEmpty then ({ p with parseErrors := ["File is empty.".toList] }, [])
    else
      let s1 := removeComments s
      match rootBlock "scripted_gui".toList s1 with
      | none =>
        ({ p with parseErrors :=
            [("scripted_gui block not found. " ++
              "Please check if this is a valid scripted_gui file.").toList] }, [])
      | some inner =>
        let defs := (extractGuiDefinitions inner).filterMap
          (fun nc => parseSingleGuiDefinition nc.1 nc.2)
        ({ p with parseErrors := [], scriptedGuis := defs }, defs)

/-- Python substring test `needle in hay`. -/
def pyIn (needle hay : Str) : Bool :=
  hay.tails.any (fun t => needle.isPrefixOf t)

/-- `os.path.basename` (POSIX): everything after the last `/`. -/
def pyBasename (m : Str) : Str :=
  (m.reverse.takeWhile (fun c => ¬(c = '/'))).reverse

/-- The stem of `os.path.splitext`: cut at the last `.` unless every
character before it is a dot. -/
def pySplitextStem (b : Str) : Str :=
  match b.reverse.dropWhile (fun c => ¬(c = '.')) with
  | [] => b
  | _ :: restRev =>
    if restRev.reverse.all (fun c => c = '.') then b else restRev.reverse

/-- Python `str.strip('"\'')`. -/
def pyStripQuotes (s : Str) : Str :=
  ((s.dropWhile quoteChar).reverse.dropWhile quoteChar).reverse

/-- The candidate normalization of `AnalysisWorker.run` (main.py,
lines 1223-1234): the GFX-marker filter, the path-to-stem step for
path-looking candidates, and quote stripping.  `none` means the candidate is
discarded before the table lookup. -/
def normalizeCandidate (m : Str) : Option Str :=
  if ¬ m.isEmpty ∧ ("GFX_".toList.isPrefixOf m ∨ pyIn "GFX".toList m) then
    if '/' ∈ m ∨ '\\' ∈ m then
      if "GFX_".toList.isPrefixOf (pySplitextStem (pyBasename m)) ∨
          pyIn "GFX".toList (pySplitextStem (pyBasename m)) then
        some (pyStripQuotes (pySplitextStem (pyBasename m)))
      else none
    else some (pyStripQuotes m)
  else none

/-- The result payload of `AnalysisWorker.run` ; the Python sets are
modelled as insertion-ordered duplicate-free lists (all verified properties
are about membership only). -/
structure AnalysisResults where
  orphaned_gfx : List Str := []
  missing_definitions : List Str := []
  duplicate_definitions : List (Str × List Str) := []
  used_gfx : List Str := []
  usage_locations : List (Str × List Str) := []
deriving DecidableEq, Repr

def addUsed (used : List Str) (m : Str) : List Str :=
  if m ∈ used then used else used ++ [m]

def addLocation (locs : List (Str × List Str)) (m file : Str) : List (Str × List Str) :=
  let cur := (dictLookup locs m).getD []
  if file ∈ cur then dictInsert locs m cur else dictInsert locs m (cur ++ [file])

/-- Per-candidate body of the reference-extraction loop of
`AnalysisWorker.run`: a normalized candidate is accepted (into `used_gfx`
and `usage_locations`) iff it is a key of the definition table and the
scanned file is not the file that defines it. -/
def processMatch (gfx : List (Str × Str)) (file : Str) (res : AnalysisResults)
    (m : Str) : AnalysisResults :=
  match normalizeCandidate m with
  | none => res
  | some m2 =>
    if ¬ m2.isEmpty then
      match dictLookup gfx m2 with
      | some defFile =>
        if ¬ (file = defFile) then
          { res with used_gfx := addUsed res.used_gfx m2
                     usage_locations := addLocation res.usage_locations m2 file }
        else res
      | none => res
    else res

/-- The corpus scan: the per-file regex bank and string-aware comment
stripping are the extraction stage whose output (the flattened match
strings) is taken as input here; every verified property quantifies over
arbitrary candidate lists, hence over every possible extraction output. -/
def scanPhase (gfx : List (Str × Str)) (corpus : List (Str × List Str))
    (res : AnalysisResults) : AnalysisResults :=
  corpus.foldl (fun r fc => fc.2.foldl (processMatch gfx fc.1) r) res

/-- Duplicate detection over the definition table (main.py, lines
1121-1130). -/
def duplicatePhase (gfx : List (Str × Str)) : List (Str × List Str) :=
  let n2f := gfx.foldl (fun m p => dictInsert m p.1 ((dictLookup m p.1).getD [] ++ [p.2])) []
  n2f.filter (fun p => 1 < p.2.length)

/-- `str.replace('GFX_', '')`: left-to-right, non-overlapping. -/
def gfxReplaceAll : Str → Str
  | 'G' :: 'F' :: 'X' :: '_' :: t => gfxReplaceAll t
  | c :: t => c :: gfxReplaceAll t
  | [] => []

/-- The per-name normalization of the orphan-reconciliation pass:
`name.replace('GFX_', '') if name.startswith('GFX_') else name`. -/
def orphanBase (s : Str) : Str :=
  if "GFX_".toList.isPrefixOf s then gfxReplaceAll s else s

/-- The reconciliation test of the source: normalized equality, or either
original name a substring of the other. -/
def fuzzyMatch (d u : Str) : Bool :=
  orphanBase d = orphanBase u || pyIn d u || pyIn u d

/-- One iteration of the orphan loop (main.py, lines 1260-1283) for a
defined name `d`. -/
def orphanStep (gfx : List (Str × Str)) (res : AnalysisResults) (d : Str) :
    AnalysisResults :=
  if d ∈ res.used_gfx then res
  else
    match res.used_gfx.find? (fun u => fuzzyMatch d u) with
    | some u =>
      match dictLookup res.usage_locations u with
      | some uLocs =>
        let defFile := (dictLookup gfx d).getD []
        let cur := (dictLookup res.usage_locations d).getD []
        { res with usage_locations :=
            dictInsert res.usage_locations d (cur ++ uLocs.filter (fun f => ¬ (f = defFile))) }
      | none => res
    | none => { res with orphaned_gfx := res.orphaned_gfx ++ [d] }

def orphanPhase (gfx : List (Str × Str)) (res : AnalysisResults) : AnalysisResults :=
  (gfx.map Prod.fst).foldl (orphanStep gfx) res

/-- `AnalysisWorker.run` (main.py): duplicates, corpus scan, orphan
reconciliation, missing-definition detection.  Inputs: the definition table
(name, defining file) and the corpus as (file, extracted candidate
matches). -/
def analysisRun (gfx : List (Str × Str)) (corpus : List (Str × List Str)) :
    AnalysisResults :=
  let r1 : AnalysisResults := { duplicate_definitions := duplicatePhase gfx }
  let r2 := scanPhase gfx corpus r1
  let r3 := orphanPhase gfx r2
  { r3 with missing_definitions := r3.used_gfx.filter (fun u => (dictLookup gfx u).isNone) }

/-- Characters that do not move the brace-depth counter. -/
def braceFree (s : Str) : Prop := ∀ c ∈ s, ¬(c = '{' ∨ c = '}')

instance (s : Str) : Decidable (braceFree s) := by
  unfold braceFree; infer_instance

theorem takeBalanced_chunk (X : Str) (hX : braceFree X) :
    ∀ (l : Str) (d : Nat),
      takeBalanced (X ++ l) d = (takeBalanced l d).map (fun p => (X ++ p.1, p.2)) := by
  induction X with
  | nil =>
    intro l d
    simp only [List.nil_append]
    cases h : takeBalanced l d with
    | none => simp
    | some p => simp
  | cons c t ih =>
    intro l d
    have hc := hX c (by simp)
    have ht : braceFree t := fun x hx => hX x (by simp [hx])
    rw [List.cons_append, takeBalanced]
    have hc1 : ¬(c = '}') := fun he => hc (Or.inr he)
    have hc2 : ¬(c = '{') := fun he => hc (Or.inl he)
    simp only [hc1, hc2, if_false, ih ht l d]
    cases takeBalanced l d with
    | none => simp
    | some p => simp

theorem takeBalanced_open (l : Str) (d : Nat) :
    takeBalanced ('{' :: l) d = (takeBalanced l (d + 1)).map (fun p => ('{' :: p.1, p.2)) := by
  rw [takeBalanced]; simp

theorem takeBalanced_close_pos (l : Str) (d : Nat) (hd : d ≠ 0) :
    takeBalanced ('}' :: l) d = (takeBalanced l (d - 1)).map (fun p => ('}' :: p.1, p.2)) := by
  rw [takeBalanced]; simp [hd]

theorem takeBalanced_close_zero (l : Str) :
    takeBalanced ('}' :: l) 0 = some ([], l) := by
  rw [takeBalanced]; simp

theorem tagOpenAt_exact (tag r : Str) :
    tagOpenAt tag (tag ++ ' ' :: '=' :: ' ' :: '{' :: r) = some r := by
  unfold tagOpenAt
  rw [matchLit_append]
  have h1 : skipSpaces (' ' :: '=' :: ' ' :: '{' :: r) = '=' :: ' ' :: '{' :: r := by
    simp [skipSpaces, List.dropWhile_cons, pySpace]
  have h2 : skipSpaces (' ' :: '{' :: r) = '{' :: r := by
    simp [skipSpaces, List.dropWhile_cons, pySpace]
  simp only [h1, h2]

theorem tagOpenAt_nil (tag : Str) : tagOpenAt tag [] = none := by
  cases tag with
  | nil => simp [tagOpenAt, matchLit, skipSpaces]
  | cons c t => simp [tagOpenAt, matchLit]

theorem findTagOpen_of_tagOpenAt (tag s r : Str) (h : tagOpenAt tag s = some r) :
    findTagOpen tag s = some r := by
  cases s with
  | nil => rw [tagOpenAt_nil] at h; exact absurd h (by simp)
  | cons c t => rw [findTagOpen, h]

theorem findTagOpen_nil (tag : Str) : findTagOpen tag [] = none := by
  simp [findTagOpen]

theorem extractBlockContent_nil (tag : Str) : extractBlockContent tag [] = [] := by
  rw [extractBlockContent_eq, findTagOpen_nil]

theorem braceFree_pad (A : Str) (hA : braceFree A) : braceFree (' ' :: A ++ [' ']) := by
  intro c hc
  rcases List.mem_cons.mp hc with h | h
  · subst h; decide
  · rcases List.mem_append.mp h with h | h
    · exact hA c h
    · have : c = ' ' := by simpa using h
      subst this; decide

theorem c4_take_core (A B C : Str) (hA : braceFree A) (hB : braceFree B)
    (hC : braceFree C) :
    takeBalanced (' ' :: (A ++ ' ' :: '{' :: ' ' ::
        (B ++ ' ' :: '}' :: ' ' :: (C ++ [' ', '}'])))) 0 =
      some (' ' :: (A ++ ' ' :: '{' :: ' ' :: (B ++ ' ' :: '}' :: ' ' :: (C ++ [' ']))), []) := by
  have e1 : ' ' :: (A ++ ' ' :: '{' :: ' ' :: (B ++ ' ' :: '}' :: ' ' :: (C ++ [' ', '}']))) =
      (' ' :: A ++ [' ']) ++ '{' :: ((' ' :: B ++ [' ']) ++ '}' :: ((' ' :: C ++ [' ']) ++ ['}'])) := by
    simp
  rw [e1]
  rw [takeBalanced_chunk _ (braceFree_pad A hA)]
  rw [takeBalanced_open]
  rw [takeBalanced_chunk _ (braceFree_pad B hB)]
  rw [takeBalanced_close_pos _ _ (by omega)]
  rw [takeBalanced_chunk _ (braceFree_pad C hC)]
  rw [takeBalanced_close_zero]
  simp

/-- C4: Block Extractor brace matching.  For the template
`tag = \x7b A \x7b B \x7d C \x7d` with brace-free `A`, `B`, `C`, the
extractor returns exactly one match whose content is exactly the text
between the outer braces (nested braces preserved verbatim); and for the
unbalanced template `tag = \x7b D` (depth never returns to zero) the
trailing content yields no match and is silently dropped. -/
theorem c4_block_extractor_brace_matching (tag A B C D : Str) (hA : braceFree A)
    (hB : braceFree B) (hC : braceFree C) (hD : braceFree D) :
    extractBlockContent tag
        (tag ++ ' ' :: '=' :: ' ' :: '{' :: ' ' ::
          (A ++ ' ' :: '{' :: ' ' :: (B ++ ' ' :: '}' :: ' ' :: (C ++ [' ', '}'])))) =
      [' ' :: (A ++ ' ' :: '{' :: ' ' :: (B ++ ' ' :: '}' :: ' ' :: (C ++ [' '])))] ∧
    extractBlockContent tag (tag ++ ' ' :: '=' :: ' ' :: '{' :: D) = [] := by
  constructor
  · have hf : findTagOpen tag
        (tag ++ ' ' :: '=' :: ' ' :: '{' :: ' ' ::
          (A ++ ' ' :: '{' :: ' ' :: (B ++ ' ' :: '}' :: ' ' :: (C ++ [' ', '}'])))) =
        some (' ' :: (A ++ ' ' :: '{' :: ' ' :: (B ++ ' ' :: '}' :: ' ' :: (C ++ [' ', '}'])))) :=
      findTagOpen_of_tagOpenAt _ _ _ (tagOpenAt_exact tag _)
    rw [extractBlockContent_eq, hf]
    dsimp only
    rw [c4_take_core A B C hA hB hC]
    dsimp only
    rw [extractBlockContent_nil]
  · have hf : findTagOpen tag (tag ++ ' ' :: '=' :: ' ' :: '{' :: D) = some D :=
      findTagOpen_of_tagOpenAt _ _ _ (tagOpenAt_exact tag D)
    have htb : takeBalanced D 0 = none := by
      have := takeBalanced_chunk D hD [] 0
      simpa [takeBalanced] using this
    rw [extractBlockContent_eq, hf]
    dsimp only
    rw [htb]

/-- C9: parser failure semantics.  For a missing file, an input undecodable
in both supported encodings, a whitespace-only file, or a file whose
comment-stripped text lacks the required root block, `parse_file` of either
parser returns an empty element/definition list and records exactly one
human-readable error; being total Lean functions, the embedded entry points
raise nothing on any input. -/
theorem c9_parse_failure_semantics (p : HOI4Parser) (q : ScriptedParser)
    (path : Str) (input : FileInput) :
    ((∀ s, input = .text s → (pyStrip s).isEmpty = true ∨
        rootBlock "guiTypes".toList (removeComments s) = none) →
      (hoi4ParseFile p path input).2 = [] ∧
      (hoi4ParseFile p path input).1.parseErrors.length = 1) ∧
    ((∀ s, input = .text s → (pyStrip s).isEmpty = true ∨
        rootBlock "scripted_gui".toList (removeComments s) = none) →
      (scriptedParseFile q path input).2 = [] ∧
      (scriptedParseFile q path input).1.parseErrors.length = 1) := by
  constructor
  · intro hf
    cases input with
    | missing => simp [hoi4ParseFile]
    | undecodable d => simp [hoi4ParseFile]
    | text s =>
      by_cases hse : (pyStrip s).isEmpty = true
      · simp [hoi4ParseFile, hse]
      · rcases hf s rfl with he | hr
        · exact absurd he hse
        · unfold hoi4ParseFile
          dsimp only
          rw [if_neg hse, hr]
          simp
  · intro hf
    cases input with
    | missing => simp [scriptedParseFile]
    | undecodable d => simp [scriptedParseFile]
    | text s =>
      by_cases hse : (pyStrip s).isEmpty = true
      · simp [scriptedParseFile, hse]
      · rcases hf s rfl with he | hr
        · exact absurd he hse
        · unfold scriptedParseFile
          dsimp only
          rw [if_neg hse, hr]
          simp

theorem c9_parse_failure_semantics_witness :
    (hoi4ParseFile hoi4Init [] (.text ("foo = \x7b bar = 1 \x7d").toList)).2 = [] ∧
    (hoi4ParseFile hoi4Init [] (.text ("foo = \x7b bar = 1 \x7d").toList)).1.parseErrors.length = 1 ∧
    (scriptedParseFile scriptedInit [] (.text ("foo = \x7b bar = 1 \x7d").toList)).2 = [] ∧
    (scriptedParseFile scriptedInit [] FileInput.missing).1.parseErrors.length = 1 := by
  have h := c9_parse_failure_semantics hoi4Init scriptedInit []
    (.text ("foo = \x7b bar = 1 \x7d").toList)
  have hg := h.1 (by intro s hs; cases hs; right; decide)
  have hs := h.2 (by intro s hs; cases hs; right; decide)
  have h2 := (c9_parse_failure_semantics hoi4Init scriptedInit [] FileInput.missing).2
    (by intro s hs; cases hs)
  exact ⟨hg.1, hg.2, hs.1, h2.2⟩

theorem findMap_cons_none {α : Type} (f : Str → Option α) (c : Char) (t : Str)
    (h : f (c :: t) = none) : findMap f (c :: t) = findMap f t := by
  show (match f (c :: t) with | some v => some v | none => findMap f t) = findMap f t
  rw [h]

theorem findMap_cons_some {α : Type} (f : Str → Option α) (c : Char) (t : Str) (v : α)
    (h : f (c :: t) = some v) : findMap f (c :: t) = some v := by
  show (match f (c :: t) with | some v => some v | none => findMap f t) = some v
  rw [h]

theorem dropWhile_all_false (p : Char → Bool) (v : Str)
    (h : ∀ c ∈ v, p c = false) : v.dropWhile p = v := by
  cases v with
  | nil => rfl
  | cons c t =>
    rw [List.dropWhile_cons]
    simp [h c (by simp)]

theorem pyStrip_no_space (v : Str) (hv : ∀ c ∈ v, pySpace c = false) : pyStrip v = v := by
  unfold pyStrip
  rw [dropWhile_all_false pySpace v hv]
  rw [dropWhile_all_false pySpace v.reverse (fun c hc => hv c (List.mem_reverse.mp hc))]
  exact List.reverse_reverse v

theorem takeWhile_append_stop (p : Char → Bool) (v : Str) (c : Char) (rest : Str)
    (hv : ∀ x ∈ v, p x = true) (hc : p c = false) :
    (v ++ c :: rest).takeWhile p = v := by
  induction v with
  | nil => simp [List.takeWhile_cons, hc]
  | cons d t ih =>
    have hd := hv d (by simp)
    simp [List.takeWhile_cons, hd, ih (fun x hx => hv x (by simp [hx]))]

theorem quotedValAt_hit (v : Str) (hne : v ≠ [])
    (hv : ∀ c ∈ v, (quoteChar c || (c = '}' : Bool)) = false) :
    quotedValAt ['k'] ('k' :: '=' :: '"' :: (v ++ ['"'])) = some v := by
  have h1 : quotedValAt ['k'] ('k' :: '=' :: '"' :: (v ++ ['"'])) =
      (let grp := (v ++ ['"']).takeWhile (fun c => ¬(quoteChar c ∨ c = '}'))
       if grp.isEmpty then none
       else
         match (v ++ ['"']).drop grp.length with
         | q2 :: _ => if quoteChar q2 then some grp else none
         | [] => none) := rfl
  rw [h1]
  have h2 : (v ++ ['"']).takeWhile (fun c => ¬(quoteChar c ∨ c = '}')) = v := by
    refine takeWhile_append_stop _ v '"' [] (fun x hx => ?_) (by decide)
    have := hv x hx
    simp only [Bool.or_eq_false_iff] at this
    simp [this.1, this.2]
  dsimp only
  rw [h2]
  rw [if_neg (by simpa using hne)]
  rw [List.drop_left]
  simp [quoteChar]

/-- C6 counterexample: on a block text containing the key both in bare and
in quoted form, `ScriptedGUIParser._extract_property` returns the BARE
token, not the quoted value — its quoted pattern is only a fallback, so the
claim that both parsers prefer the quoted form is false on the code. -/
theorem c6_counterexample_scripted_prefers_bare :
    scriptedExtractProperty "key".toList ("key = bare\nkey = \x22quoted value\x22").toList =
      some "bare".toList ∧
    hoi4ExtractProperty "key".toList ("key = bare\nkey = \x22quoted value\x22").toList =
      some "quoted value".toList ∧
    ¬ scriptedExtractProperty "key".toList ("key = bare\nkey = \x22quoted value\x22").toList =
      some "quoted value".toList := by
  refine ⟨by decide, by decide, by decide⟩

/-- C6 (amended): for every quoted value `v` (non-empty, free of quotes,
`\x7d` and whitespace), on a block text with an earlier bare occurrence and
a later quoted occurrence of the key, `HOI4GUIParser._extract_property`
prefers the quoted form and returns `v`, while
`ScriptedGUIParser._extract_property` tries the bare-token pattern first and
returns the bare token. -/
theorem c6_amended_quoted_preference (v : Str) (hne : v ≠ [])
    (hv : ∀ c ∈ v, (quoteChar c || (c = '}' : Bool) || pySpace c) = false) :
    hoi4ExtractProperty ['k'] ('k' :: '=' :: 'b' :: '\n' :: 'k' :: '=' :: '"' :: (v ++ ['"'])) =
      some v ∧
    scriptedExtractProperty ['k']
        ('k' :: '=' :: 'b' :: '\n' :: 'k' :: '=' :: '"' :: (v ++ ['"'])) = some ['b'] := by
  constructor
  · have hq : findMap (quotedValAt ['k'])
        ('k' :: '=' :: 'b' :: '\n' :: 'k' :: '=' :: '"' :: (v ++ ['"'])) = some v := by
      rw [findMap_cons_none _ _ _ (by rfl)]
      rw [findMap_cons_none _ _ _ (by rfl)]
      rw [findMap_cons_none _ _ _ (by rfl)]
      rw [findMap_cons_none _ _ _ (by rfl)]
      exact findMap_cons_some _ _ _ _
        (quotedValAt_hit v hne (fun c hc => by
          have := hv c hc
          simp only [Bool.or_eq_false_iff] at this
          simp [this.1.1, this.1.2]))
    unfold hoi4ExtractProperty
    rw [hq]
    dsimp only
    rw [pyStrip_no_space v (fun c hc => by
      have := hv c hc
      simp only [Bool.or_eq_false_iff] at this
      exact this.2)]
  · rfl

theorem c6_amended_quoted_preference_witness :
    hoi4ExtractProperty ['k']
        ('k' :: '=' :: 'b' :: '\n' :: 'k' :: '=' :: '"' :: ("val".toList ++ ['"'])) =
      some "val".toList ∧
    scriptedExtractProperty ['k']
        ('k' :: '=' :: 'b' :: '\n' :: 'k' :: '=' :: '"' :: ("val".toList ++ ['"'])) =
      some ['b'] :=
  c6_amended_quoted_preference "val".toList (by decide) (by decide)

theorem dictLookup_insert {α : Type} (m : List (Str × α)) (k : Str) (v : α) (k2 : Str) :
    dictLookup (dictInsert m k v) k2 = if k = k2 then some v else dictLookup m k2 := by
  induction m with
  | nil =>
    by_cases h : k = k2 <;> simp [dictInsert, dictLookup, h]
  | cons p t ih =>
    obtain ⟨k3, v3⟩ := p
    by_cases h3 : k3 = k
    · subst h3
      by_cases h : k3 = k2 <;> simp [dictInsert, dictLookup, h]
    · by_cases h : k3 = k2
      · subst h
        have hk : ¬ (k = k3) := fun he => h3 he.symm
        simp [dictInsert, dictLookup, h3, hk]
      · simp [dictInsert, dictLookup, h3, h, ih]

theorem dictInsert_ne_nil {α : Type} (m : List (Str × α)) (k : Str) (v : α) :
    dictInsert m k v ≠ [] := by
  cases m with
  | nil => simp [dictInsert]
  | cons p t =>
    unfold dictInsert
    split <;> simp

theorem foldl_dictInsert_ne_nil (defs : List ScriptedGUIDefinition) :
    ∀ (m : List (Str × ScriptedGUIDefinition)), m ≠ [] →
      defs.foldl (fun m d => dictInsert m d.window_name d) m ≠ [] := by
  induction defs with
  | nil => intro m hm; simpa using hm
  | cons d t ih =>
    intro m hm
    rw [List.foldl_cons]
    exact ih _ (dictInsert_ne_nil _ _ _)

theorem setScriptedGuiData_ne_nil (defs : List ScriptedGUIDefinition) (hne : defs ≠ []) :
    setScriptedGuiData defs ≠ [] := by
  cases defs with
  | nil => exact absurd rfl hne
  | cons d t =>
    unfold setScriptedGuiData
    rw [List.foldl_cons]
    exact foldl_dictInsert_ne_nil t _ (dictInsert_ne_nil _ _ _)

theorem dictInsert_key_inv {α : Type} (P : Str → α → Prop) (m : List (Str × α))
    (k : Str) (v : α) (hm : ∀ p ∈ m, P p.1 p.2) (hv : P k v) :
    ∀ p ∈ dictInsert m k v, P p.1 p.2 := by
  induction m with
  | nil => intro p hp; simp [dictInsert] at hp; rw [hp]; exact hv
  | cons q t ih =>
    intro p hp
    unfold dictInsert at hp
    split at hp
    · rename_i he
      rcases List.mem_cons.mp hp with h | h
      · rw [h]
        show P q.1 v
        rw [he]
        exact hv
      · exact hm p (by simp [h])
    · rcases List.mem_cons.mp hp with h | h
      · rw [h]; exact hm q (by simp)
      · exact ih (fun r hr => hm r (by simp [hr])) p h

theorem setScriptedGuiData_key_inv (defs : List ScriptedGUIDefinition) :
    ∀ p ∈ setScriptedGuiData defs, p.2.window_name = p.1 := by
  suffices h : ∀ (m : List (Str × ScriptedGUIDefinition)),
      (∀ p ∈ m, p.2.window_name = p.1) →
      ∀ p ∈ defs.foldl (fun m d => dictInsert m d.window_name d) m, p.2.window_name = p.1 by
    exact h [] (fun p hp => absurd hp (List.not_mem_nil p))
  induction defs with
  | nil => intro m hm; rw [List.foldl_nil] at *; exact hm
  | cons d t ih =>
    intro m hm
    rw [List.foldl_cons]
    exact ih _ (dictInsert_key_inv (fun k v => v.window_name = k) m d.window_name d hm rfl)

/-- With every stored value keyed by its own `window_name`, the linear scan
over `dict.values()` for a matching `window_name` agrees with the dict
lookup. -/
theorem find_values_eq_lookup (m : List (Str × ScriptedGUIDefinition))
    (hinv : ∀ p ∈ m, p.2.window_name = p.1) (n : Str) :
    (dictValues m).find? (fun d => d.window_name = n) = dictLookup m n := by
  induction m with
  | nil => rfl
  | cons p t ih =>
    obtain ⟨k, v⟩ := p
    have hk : v.window_name = k := hinv (k, v) (List.mem_cons_self _ _)
    have ihh := ih (fun q hq => hinv q (List.mem_cons_of_mem _ hq))
    have e1 : dictValues ((k, v) :: t) = v :: dictValues t := rfl
    rw [e1]
    have e2 : dictLookup ((k, v) :: t) n = if k = n then some v else dictLookup t n := rfl
    by_cases h : k = n
    · rw [List.find?_cons_of_pos _ (by simp [hk, h]), e2, if_pos h]
    · rw [List.find?_cons_of_neg _ (by simp [hk, h]), ihh, e2, if_neg h]

theorem lookup_foldl_insert (n : Str) :
    ∀ (defs : List ScriptedGUIDefinition) (m : List (Str × ScriptedGUIDefinition)),
      dictLookup (defs.foldl (fun m d => dictInsert m d.window_name d) m) n =
        match (defs.reverse.find? (fun d => d.window_name = n)) with
        | some d => some d
        | none => dictLookup m n := by
  intro defs
  induction defs with
  | nil => intro m; simp
  | cons d t ih =>
    intro m
    rw [List.foldl_cons, ih]
    rw [List.reverse_cons, List.find?_append]
    cases hf : t.reverse.find? (fun d => d.window_name = n) with
    | some d2 => simp
    | none =>
      simp only [Option.none_or]
      by_cases hd : d.window_name = n
      · simp [List.find?, hd, dictLookup_insert, hd]
      · have : dictLookup (dictInsert m d.window_name d) n = dictLookup m n := by
          rw [dictLookup_insert, if_neg hd]
        simp [List.find?, hd, this]

theorem reverse_find_eq_getLast_filter {α : Type} (p : α → Bool) (l : List α) :
    l.reverse.find? p = (l.filter p).getLast? := by
  induction l with
  | nil => simp
  | cons a t ih =>
    rw [List.reverse_cons, List.find?_append, ih]
    by_cases hp : p a
    · cases hf : (t.filter p).getLast? with
      | some b => simp [List.filter_cons, hp, List.getLast?_cons, hf]
        
      | none =>
        have ht : t.filter p = [] := by
          cases hq : t.filter p with
          | nil => rfl
          | cons x xs => rw [hq] at hf; simp [List.getLast?] at hf
        simp [List.filter_cons, hp, ht, List.find?, List.getLast?]
    · simp only [List.filter_cons, hp]
      cases hf : (t.filter p).getLast? with
      | some b => simp [hf]
      | none => simp [hf, List.find?, hp]

theorem lookup_setScriptedGuiData (defs : List ScriptedGUIDefinition) (n : Str) :
    dictLookup (setScriptedGuiData defs) n =
      (defs.filter (fun d => d.window_name = n)).getLast? := by
  unfold setScriptedGuiData
  rw [lookup_foldl_insert n defs []]
  rw [reverse_find_eq_getLast_filter]
  cases (defs.filter (fun d => d.window_name = n)).getLast? with
  | some d => rfl
  | none => rfl

/-- C1: Dynamic-Binding Merger, last definition wins.  When two or more
definitions share a `window_name` equal to a `containerWindowType` element's
name, the merged element (the merge maps every element through the
per-element body) carries the `visible_condition` and attached metadata of
the LAST such definition in input order, and is marked dynamic. -/
theorem c1_merger_last_definition_wins (defs : List ScriptedGUIDefinition)
    (elems : List GUIElement) (e : GUIElement) (he : e ∈ elems)
    (ht : e.element_type = containerTag)
    (h2 : 2 ≤ (defs.filter (fun d => d.window_name = e.name)).length) :
    applyScriptedGuiData (setScriptedGuiData defs) elems =
      elems.map (applyScriptedOne (setScriptedGuiData defs)) ∧
    ∃ hne : defs.filter (fun d => d.window_name = e.name) ≠ [],
      (applyScriptedOne (setScriptedGuiData defs) e).visible_condition =
        ((defs.filter (fun d => d.window_name = e.name)).getLast hne).visible_condition ∧
      (applyScriptedOne (setScriptedGuiData defs) e).scripted_data =
        some (mkScriptedData ((defs.filter (fun d => d.window_name = e.name)).getLast hne)) ∧
      (applyScriptedOne (setScriptedGuiData defs) e).is_dynamic = true := by
  have hfne : defs.filter (fun d => d.window_name = e.name) ≠ [] := by
    intro hnil
    rw [hnil] at h2
    simp at h2
  have hdne : defs ≠ [] := by
    intro hnil
    subst hnil
    simp at h2
  have hdict : ¬ ((setScriptedGuiData defs).isEmpty = true) := by
    intro hemp
    exact setScriptedGuiData_ne_nil defs hdne (List.isEmpty_iff.mp hemp)
  constructor
  · unfold applyScriptedGuiData
    rw [if_neg hdict]
  · refine ⟨hfne, ?_⟩
    have hlook : dictLookup (setScriptedGuiData defs) e.name =
        some ((defs.filter (fun d => d.window_name = e.name)).getLast hfne) := by
      rw [lookup_setScriptedGuiData]
      exact List.getLast?_eq_getLast _ hfne
    have hfind : (dictValues (setScriptedGuiData defs)).find?
        (fun d => d.window_name = e.name) =
        some ((defs.filter (fun d => d.window_name = e.name)).getLast hfne) := by
      rw [find_values_eq_lookup _ (setScriptedGuiData_key_inv defs) e.name]
      exact hlook
    unfold applyScriptedOne
    rw [if_pos ht, hlook, hfind]
    dsimp only
    cases hpr : optTruthyList
        ((defs.filter (fun d => d.window_name = e.name)).getLast hfne).properties with
    | some ps => exact ⟨rfl, rfl, rfl⟩
    | none => exact ⟨rfl, rfl, rfl⟩

def mergeDefA : ScriptedGUIDefinition :=
  { name := "d1".toList, window_name := "w".toList, visible_condition := some "a".toList }

def mergeDefB : ScriptedGUIDefinition :=
  { name := "d2".toList, window_name := "w".toList, visible_condition := some "b".toList }

def mergeElemW : GUIElement :=
  { name := "w".toList, element_type := containerTag, position := {} }

theorem c1_merger_last_definition_wins_witness :
    (applyScriptedOne (setScriptedGuiData [mergeDefA, mergeDefB])
        mergeElemW).visible_condition = some "b".toList := by
  have h := c1_merger_last_definition_wins [mergeDefA, mergeDefB] [mergeElemW] mergeElemW
    (List.mem_cons_self _ _) rfl (by decide)
  obtain ⟨hmap, hne, hvc, hsd, hdy⟩ := h
  have e1 := List.getLast?_eq_getLast
    ([mergeDefA, mergeDefB].filter (fun d => d.window_name = mergeElemW.name)) hne
  have e2 : ([mergeDefA, mergeDefB].filter
      (fun d => d.window_name = mergeElemW.name)).getLast? = some mergeDefB := by decide
  have e3 := Option.some.inj (e1.symm.trans e2)
  rw [hvc, e3]
  decide

theorem dictLookup_nil {α : Type} (k : Str) : dictLookup ([] : List (Str × α)) k = none := rfl

theorem processMatch_single_self (name defFile : Str) (r : AnalysisResults) (c : Str) :
    processMatch [(name, defFile)] defFile r c = r := by
  unfold processMatch
  cases hn : normalizeCandidate c with
  | none => rfl
  | some m3 =>
    dsimp only
    by_cases he : m3.isEmpty = true
    · rw [if_neg (not_not_intro he)]
    · rw [if_pos he]
      cases hl : dictLookup [(name, defFile)] m3 with
      | none => rfl
      | some df =>
        have hdf : df = defFile := by
          unfold dictLookup at hl
          by_cases hk : name = m3
          · rw [if_pos hk] at hl; exact (Option.some.inj hl).symm
          · rw [if_neg hk, dictLookup_nil] at hl; exact Option.noConfusion hl
        rw [hdf]
        dsimp only
        rw [if_neg (not_not_intro rfl)]

theorem foldl_processMatch_single_self (name defFile : Str) (cands : List Str)
    (r : AnalysisResults) :
    cands.foldl (processMatch [(name, defFile)] defFile) r = r := by
  induction cands with
  | nil => rfl
  | cons c t ih =>
    rw [List.foldl_cons, processMatch_single_self]
    exact ih

theorem analysisRun_single_self (name defFile : Str) (cands : List Str) :
    (analysisRun [(name, defFile)] [(defFile, cands)]).used_gfx = [] ∧
    (analysisRun [(name, defFile)] [(defFile, cands)]).orphaned_gfx = [name] := by
  simp only [analysisRun]
  have h2 : scanPhase [(name, defFile)] [(defFile, cands)]
      { duplicate_definitions := duplicatePhase [(name, defFile)] } =
      { duplicate_definitions := duplicatePhase [(name, defFile)] } := by
    unfold scanPhase
    rw [List.foldl_cons, List.foldl_nil]
    exact foldl_processMatch_single_self name defFile cands _
  rw [h2]
  have h3 : orphanPhase [(name, defFile)]
      { duplicate_definitions := duplicatePhase [(name, defFile)] } =
      { duplicate_definitions := duplicatePhase [(name, defFile)],
        orphaned_gfx := [name] } := by
    unfold orphanPhase orphanStep
    rw [List.map_cons, List.map_nil, List.foldl_cons, List.foldl_nil]
    dsimp only
    rw [if_neg (List.not_mem_nil name)]
    rfl
  rw [h3]
  exact ⟨rfl, rfl⟩

/-- C7: usage-acceptance semantics of `AnalysisWorker.run` (main.py, lines
1236-1246).  A regex candidate that survives normalization as `m2` is
recorded as a usage (added to `used_gfx` and `usage_locations`) iff `m2` is
non-empty, is a key of the definition table, and the scanned file differs
from the defining file; otherwise the results are unchanged.  Consequently
a name that is only referenced inside its own defining file gets no usage
from any candidate extracted there and is classified orphaned. -/
theorem c7_usage_acceptance (gfx : List (Str × Str)) (file : Str)
    (res : AnalysisResults) (m m2 : Str) (hn : normalizeCandidate m = some m2) :
    (processMatch gfx file res m =
      if ¬ m2.isEmpty ∧ (dictLookup gfx m2).isSome ∧ ¬ (dictLookup gfx m2 = some file) then
        { res with used_gfx := addUsed res.used_gfx m2
                   usage_locations := addLocation res.usage_locations m2 file }
      else res) ∧
    ∀ (name defFile : Str) (cands : List Str),
      (analysisRun [(name, defFile)] [(defFile, cands)]).used_gfx = [] ∧
      (analysisRun [(name, defFile)] [(defFile, cands)]).orphaned_gfx = [name] := by
  refine ⟨?_, fun name defFile cands => analysisRun_single_self name defFile cands⟩
  unfold processMatch
  rw [hn]
  dsimp only
  by_cases he : m2.isEmpty = true
  · rw [if_neg (not_not_intro he), if_neg (fun hc => hc.1 he)]
  · rw [if_pos he]
    cases hl : dictLookup gfx m2 with
    | none =>
      rw [if_neg (fun hc => Bool.noConfusion hc.2.1)]
    | some defFile =>
      dsimp only
      by_cases hf : file = defFile
      · rw [if_neg (not_not_intro hf), if_neg (fun hc => hc.2.2 (by rw [hf]))]
      · rw [if_pos hf,
          if_pos ⟨he, rfl, fun hc => hf (Option.some.inj hc).symm⟩]

theorem c7_usage_acceptance_witness :
    normalizeCandidate "GFX_x".toList = some "GFX_x".toList ∧
    ((processMatch [("GFX_x".toList, "a".toList)] "b".toList {} "GFX_x".toList =
      if ¬ ("GFX_x".toList).isEmpty ∧
          (dictLookup [("GFX_x".toList, "a".toList)] "GFX_x".toList).isSome ∧
          ¬ (dictLookup [("GFX_x".toList, "a".toList)] "GFX_x".toList = some "b".toList) then
        { ({} : AnalysisResults) with
            used_gfx := addUsed ({} : AnalysisResults).used_gfx "GFX_x".toList
            usage_locations :=
              addLocation ({} : AnalysisResults).usage_locations "GFX_x".toList "b".toList }
      else {}) ∧
    ∀ (name defFile : Str) (cands : List Str),
      (analysisRun [(name, defFile)] [(defFile, cands)]).used_gfx = [] ∧
      (analysisRun [(name, defFile)] [(defFile, cands)]).orphaned_gfx = [name]) :=
  ⟨by decide,
    c7_usage_acceptance [("GFX_x".toList, "a".toList)] "b".toList {} "GFX_x".toList
      "GFX_x".toList (by decide)⟩

theorem c4_block_extractor_brace_matching_witness :
    braceFree "a = 1".toList ∧ braceFree "b = 2".toList ∧ braceFree "c = 3".toList ∧
    braceFree "unbalanced".toList ∧
    (extractBlockContent "containerWindowType".toList
        ("containerWindowType".toList ++ ' ' :: '=' :: ' ' :: '{' :: ' ' ::
          ("a = 1".toList ++ ' ' :: '{' :: ' ' ::
            ("b = 2".toList ++ ' ' :: '}' :: ' ' :: ("c = 3".toList ++ [' ', '}'])))) =
      [' ' :: ("a = 1".toList ++ ' ' :: '{' :: ' ' ::
        ("b = 2".toList ++ ' ' :: '}' :: ' ' :: ("c = 3".toList ++ [' '])))] ∧
    extractBlockContent "containerWindowType".toList
        ("containerWindowType".toList ++ ' ' :: '=' :: ' ' :: '{' :: "unbalanced".toList) = []) :=
  ⟨by decide, by decide, by decide, by decide,
    c4_block_extractor_brace_matching "containerWindowType".toList "a = 1".toList
      "b = 2".toList "c = 3".toList "unbalanced".toList
      (by decide) (by decide) (by decide) (by decide)⟩

theorem addUsed_subset (used : List Str) (m x : Str) (hx : x ∈ addUsed used m) :
    x ∈ used ∨ x = m := by
  unfold addUsed at hx
  split at hx
  · exact Or.inl hx
  · rcases List.mem_append.mp hx with h | h
    · exact Or.inl h
    · exact Or.inr (List.mem_singleton.mp h)

theorem processMatch_used_isSome (gfx : List (Str × Str)) (file : Str)
    (r : AnalysisResults) (m : Str)
    (hr : ∀ u ∈ r.used_gfx, (dictLookup gfx u).isSome = true) :
    ∀ u ∈ (processMatch gfx file r m).used_gfx, (dictLookup gfx u).isSome = true := by
  unfold processMatch
  cases hn : normalizeCandidate m with
  | none => exact hr
  | some m2 =>
    dsimp only
    split
    · cases hl : dictLookup gfx m2 with
      | none => exact hr
      | some df =>
        dsimp only
        split
        · intro u hu
          rcases addUsed_subset _ _ _ hu with h | h
          · exact hr u h
          · rw [h, hl]; rfl
        · exact hr
    · exact hr

theorem foldl_processMatch_used_isSome (gfx : List (Str × Str)) (file : Str)
    (cs : List Str) :
    ∀ (r : AnalysisResults), (∀ u ∈ r.used_gfx, (dictLookup gfx u).isSome = true) →
      ∀ u ∈ (cs.foldl (processMatch gfx file) r).used_gfx, (dictLookup gfx u).isSome = true := by
  induction cs with
  | nil => exact fun r h => h
  | cons c ct ihc =>
    intro r h
    rw [List.foldl_cons]
    exact ihc _ (processMatch_used_isSome gfx file r c h)

theorem scanPhase_used_isSome (gfx : List (Str × Str)) (corpus : List (Str × List Str))
    (r : AnalysisResults) (hr : ∀ u ∈ r.used_gfx, (dictLookup gfx u).isSome = true) :
    ∀ u ∈ (scanPhase gfx corpus r).used_gfx, (dictLookup gfx u).isSome = true := by
  unfold scanPhase
  induction corpus generalizing r with
  | nil => exact hr
  | cons fc t ih =>
    rw [List.foldl_cons]
    exact ih _ (foldl_processMatch_used_isSome gfx fc.1 fc.2 r hr)

theorem orphanStep_used (gfx : List (Str × Str)) (r : AnalysisResults) (d : Str) :
    (orphanStep gfx r d).used_gfx = r.used_gfx := by
  unfold orphanStep
  split
  · rfl
  · cases r.used_gfx.find? (fun u => fuzzyMatch d u) with
    | some u =>
      dsimp only
      cases dictLookup r.usage_locations u with
      | some uLocs => rfl
      | none => rfl
    | none => rfl

theorem orphanPhase_used (gfx : List (Str × Str)) (r : AnalysisResults) :
    (orphanPhase gfx r).used_gfx = r.used_gfx := by
  unfold orphanPhase
  generalize (gfx.map Prod.fst) = ds
  induction ds generalizing r with
  | nil => rfl
  | cons d t ih => rw [List.foldl_cons, ih, orphanStep_used]

/-- C10: the missing-definition pass of `AnalysisWorker.run` (main.py, lines
1286-1293) can never report anything: every name in `used_gfx` was accepted
only after a successful lookup in the definition table, the orphan pass does
not touch `used_gfx`, and the missing filter keeps exactly the used names
whose lookup fails — so `missing_definitions` is `[]` for every definition
table and every corpus. -/
theorem c10_missing_definitions_empty (gfx : List (Str × Str))
    (corpus : List (Str × List Str)) :
    (analysisRun gfx corpus).missing_definitions = [] := by
  simp only [analysisRun]
  rw [List.filter_eq_nil_iff]
  intro u hu hcontra
  rw [orphanPhase_used] at hu
  have hs := scanPhase_used_isSome gfx corpus { duplicate_definitions := duplicatePhase gfx }
    (fun u h => absurd h (List.not_mem_nil u)) u hu
  rw [Option.isNone_iff_eq_none.mp hcontra] at hs
  exact Bool.noConfusion hs

/-- Spec-side normalization for C8, following the specification's words:
strip a literal leading `GFX_` prefix (once) from the name. -/
def specGfxStrip (s : Str) : Str :=
  if "GFX_".toList.isPrefixOf s then s.drop 4 else s

/-- Spec-side reconciliation test for C8: equality after stripping the
`GFX_` prefix from both names, or one name a substring of the other. -/
def specFuzzyReconcile (d u : Str) : Bool :=
  specGfxStrip d = specGfxStrip u || pyIn d u || pyIn u d

theorem pyIn_suffix (x p : Str) : pyIn x (p ++ x) = true := by
  unfold pyIn
  rw [List.any_eq_true]
  exact ⟨x, (List.mem_tails x (p ++ x)).mpr (List.suffix_append p x),
    List.isPrefixOf_iff_prefix.mpr (List.prefix_refl x)⟩

theorem pyIn_self (x : Str) : pyIn x x = true := by
  have h := pyIn_suffix x []
  rwa [List.nil_append] at h

theorem drop_gfx_marker (t : Str) : ("GFX_".toList ++ t).drop 4 = t := by
  rfl

theorem spec_imp_fuzzyMatch (d u : Str) (h : specFuzzyReconcile d u = true) :
    fuzzyMatch d u = true := by
  unfold specFuzzyReconcile at h
  rw [Bool.or_eq_true, Bool.or_eq_true] at h
  unfold fuzzyMatch
  rw [Bool.or_eq_true, Bool.or_eq_true]
  rcases h with (hs | hdu) | hud
  · rw [decide_eq_true_iff] at hs
    unfold specGfxStrip at hs
    by_cases hd : "GFX_".toList.isPrefixOf d = true
    · obtain ⟨td, htd⟩ := List.isPrefixOf_iff_prefix.mp hd
      by_cases hu : "GFX_".toList.isPrefixOf u = true
      · obtain ⟨tu, htu⟩ := List.isPrefixOf_iff_prefix.mp hu
        rw [if_pos hd, if_pos hu, ← htd, ← htu, drop_gfx_marker, drop_gfx_marker] at hs
        rw [← htd, ← htu, hs]
        exact Or.inl (Or.inr (pyIn_self _))
      · rw [if_pos hd, if_neg hu, ← htd, drop_gfx_marker] at hs
        rw [← htd, hs]
        exact Or.inr (pyIn_suffix _ _)
    · by_cases hu : "GFX_".toList.isPrefixOf u = true
      · obtain ⟨tu, htu⟩ := List.isPrefixOf_iff_prefix.mp hu
        rw [if_neg hd, if_pos hu, ← htu, drop_gfx_marker] at hs
        rw [← htu, hs]
        exact Or.inl (Or.inr (pyIn_suffix _ _))
      · rw [if_neg hd, if_neg hu] at hs
        rw [hs]
        exact Or.inl (Or.inr (pyIn_self _))
  · exact Or.inl (Or.inr hdu)
  · exact Or.inr hud

theorem processMatch_orphaned (gfx : List (Str × Str)) (file : Str)
    (r : AnalysisResults) (m : Str) :
    (processMatch gfx file r m).orphaned_gfx = r.orphaned_gfx := by
  unfold processMatch
  cases normalizeCandidate m with
  | none => rfl
  | some m2 =>
    dsimp only
    split
    · cases dictLookup gfx m2 with
      | none => rfl
      | some df =>
        dsimp only
        split
        · rfl
        · rfl
    · rfl

theorem foldl_processMatch_orphaned (gfx : List (Str × Str)) (file : Str)
    (cs : List Str) :
    ∀ (r : AnalysisResults),
      (cs.foldl (processMatch gfx file) r).orphaned_gfx = r.orphaned_gfx := by
  induction cs with
  | nil => exact fun r => rfl
  | cons c ct ihc =>
    intro r
    rw [List.foldl_cons, ihc, processMatch_orphaned]

theorem scanPhase_orphaned (gfx : List (Str × Str)) (corpus : List (Str × List Str)) :
    ∀ (r : AnalysisResults), (scanPhase gfx corpus r).orphaned_gfx = r.orphaned_gfx := by
  unfold scanPhase
  induction corpus with
  | nil => exact fun r => rfl
  | cons fc t ih =>
    intro r
    rw [List.foldl_cons, ih, foldl_processMatch_orphaned]

theorem orphanStep_no_new_match (gfx : List (Str × Str)) (r : AnalysisResults)
    (d d2 : Str) (hd : d ∉ r.orphaned_gfx)
    (hm : ∃ u ∈ r.used_gfx, fuzzyMatch d u = true) :
    d ∉ (orphanStep gfx r d2).orphaned_gfx := by
  unfold orphanStep
  split
  · exact hd
  · cases hfind : r.used_gfx.find? (fun u => fuzzyMatch d2 u) with
    | some u =>
      dsimp only
      cases dictLookup r.usage_locations u with
      | some uLocs => exact hd
      | none => exact hd
    | none =>
      dsimp only
      intro hmem
      rcases List.mem_append.mp hmem with h | h
      · exact hd h
      · obtain ⟨u, hu, hfu⟩ := hm
        rw [List.mem_singleton.mp h] at hfu
        have := List.find?_eq_none.mp hfind u hu
        exact this hfu

theorem foldl_orphanStep_no_match (gfx : List (Str × Str)) (d : Str) :
    ∀ (ds : List Str) (r : AnalysisResults), d ∉ r.orphaned_gfx →
      (∃ u ∈ r.used_gfx, fuzzyMatch d u = true) →
      d ∉ (ds.foldl (orphanStep gfx) r).orphaned_gfx := by
  intro ds
  induction ds with
  | nil => exact fun r hd _ => hd
  | cons d2 t ih =>
    intro r hd hm
    rw [List.foldl_cons]
    refine ih _ (orphanStep_no_new_match gfx r d d2 hd hm) ?_
    rw [orphanStep_used]
    exact hm

/-- C8: fuzzy orphan reconciliation.  If a defined name `d` reconciles, in
the sense of the specification (equality after stripping a literal leading
`GFX_` from both names, or one name a substring of the other), with at
least one name of the final used-set, then the analyzer does not place `d`
in the orphaned set: the specification's test implies the code's test
(`replace('GFX_','')` normalization on `startswith` plus the two `in`
checks), and the orphan loop only records a name when no used name passes
the code's test. -/
theorem c8_fuzzy_orphan_reconciliation (gfx : List (Str × Str))
    (corpus : List (Str × List Str)) (d : Str)
    (hmatch : ∃ u ∈ (analysisRun gfx corpus).used_gfx, specFuzzyReconcile d u = true) :
    d ∉ (analysisRun gfx corpus).orphaned_gfx := by
  simp only [analysisRun] at hmatch ⊢
  rw [orphanPhase_used] at hmatch
  unfold orphanPhase
  refine foldl_orphanStep_no_match gfx d (gfx.map Prod.fst)
    (scanPhase gfx corpus { duplicate_definitions := duplicatePhase gfx }) ?_ ?_
  · rw [scanPhase_orphaned]
    exact List.not_mem_nil d
  · obtain ⟨u, hu, hs⟩ := hmatch
    exact ⟨u, hu, spec_imp_fuzzyMatch d u hs⟩

theorem c8_fuzzy_orphan_reconciliation_witness :
    (∃ u ∈ (analysisRun
        [("GFX_banner".toList, "a".toList), ("GFX_banner_alt".toList, "x".toList)]
        [("b".toList, ["GFX_banner".toList])]).used_gfx,
      specFuzzyReconcile "GFX_banner_alt".toList u = true) ∧
    "GFX_banner_alt".toList ∉ (analysisRun
        [("GFX_banner".toList, "a".toList), ("GFX_banner_alt".toList, "x".toList)]
        [("b".toList, ["GFX_banner".toList])]).orphaned_gfx :=
  ⟨by decide,
    c8_fuzzy_orphan_reconciliation
      [("GFX_banner".toList, "a".toList), ("GFX_banner_alt".toList, "x".toList)]
      [("b".toList, ["GFX_banner".toList])] "GFX_banner_alt".toList (by decide)⟩

/-- The dedup invariant of the guarded passes: element keys are distinct and
every appended element's key has been recorded in `parsed_elements`. -/
def InvEK (E : List GUIElement) (K : List Str) : Prop :=
  (E.map elementKey).Nodup ∧ ∀ e ∈ E, elementKey e ∈ K

theorem invEK_nil : InvEK [] [] :=
  ⟨List.nodup_nil, fun e he => absurd he (List.not_mem_nil e)⟩

theorem invEK_push (E : List GUIElement) (K : List Str) (e : GUIElement)
    (h : InvEK E K) (he : elementKey e ∉ K) :
    InvEK (E ++ [e]) (elementKey e :: K) := by
  constructor
  · rw [List.map_append, List.map_singleton]
    refine List.Nodup.append h.1 (List.nodup_singleton _) ?_
    intro a ha hb
    rw [List.mem_singleton] at hb
    subst hb
    obtain ⟨x, hx, hk⟩ := List.mem_map.mp ha
    exact he (hk ▸ h.2 x hx)
  · intro x hx
    rcases List.mem_append.mp hx with hx | hx
    · exact List.mem_cons_of_mem _ (h.2 x hx)
    · rw [List.mem_singleton.mp hx]
      exact List.mem_cons_self _ _

theorem foldl_invEK {α : Type} (f : ParseSt → α → ParseSt)
    (hf : ∀ st a, InvEK st.elements st.parsedKeys →
      InvEK (f st a).elements (f st a).parsedKeys) (l : List α) :
    ∀ st, InvEK st.elements st.parsedKeys →
      InvEK (l.foldl f st).elements (l.foldl f st).parsedKeys := by
  induction l with
  | nil => exact fun st h => h
  | cons a t ih =>
    intro st h
    rw [List.foldl_cons]
    exact ih _ (hf st a h)

theorem guardedStep_invEK (parse : Str → Option GUIElement) (st : ParseSt) (b : Str)
    (h : InvEK st.elements st.parsedKeys) :
    InvEK (guardedStep parse st b).elements (guardedStep parse st b).parsedKeys := by
  unfold guardedStep
  cases parse b with
  | none => exact h
  | some e =>
    dsimp only
    split
    · exact h
    · rename_i hne
      exact invEK_push _ _ e h hne

theorem parseGuardedList_invEK (parse : Str → Option GUIElement) (bs : List Str)
    (st : ParseSt) (h : InvEK st.elements st.parsedKeys) :
    InvEK (parseGuardedList parse bs st).elements
      (parseGuardedList parse bs st).parsedKeys := by
  unfold parseGuardedList
  exact foldl_invEK _ (guardedStep_invEK parse) bs st h

theorem parseNestedSimples_invEK (content : Str) (st : ParseSt)
    (h : InvEK st.elements st.parsedKeys) :
    InvEK (parseNestedSimples content st).elements
      (parseNestedSimples content st).parsedKeys := by
  unfold parseNestedSimples
  exact parseGuardedList_invEK _ _ _
    (parseGuardedList_invEK _ _ _ (parseGuardedList_invEK _ _ _ h))

theorem parseNestedGo_invEK :
    ∀ (fuel : Nat) (stack : List NestedTask) (st : ParseSt),
      InvEK st.elements st.parsedKeys →
      InvEK (parseNestedGo fuel stack st).elements
        (parseNestedGo fuel stack st).parsedKeys := by
  intro fuel
  induction fuel with
  | zero => exact fun stack st h => h
  | succ n ih =>
    intro stack st h
    cases stack with
    | nil => exact h
    | cons task rest =>
      cases task with
      | nested content => exact ih _ _ h
      | containers bs =>
        cases bs with
        | nil => exact ih _ _ h
        | cons b bs2 =>
          show InvEK (parseNestedGo (n + 1) (.containers (b :: bs2) :: rest) st).elements _
          rw [parseNestedGo]
          cases parseContainerWindowElement b with
          | none => exact ih _ _ h
          | some e =>
            dsimp only
            split
            · exact ih _ _ h
            · rename_i hne
              exact ih _ _ (invEK_push _ _ e h hne)
      | simples content => exact ih _ _ (parseNestedSimples_invEK content st h)

theorem parseNestedElements_invEK (content : Str) (st : ParseSt)
    (h : InvEK st.elements st.parsedKeys) :
    InvEK (parseNestedElements content st).elements
      (parseNestedElements content st).parsedKeys :=
  parseNestedGo_invEK _ _ _ h

theorem containerStep_invEK (st : ParseSt) (b : Str)
    (h : InvEK st.elements st.parsedKeys) :
    InvEK (containerStep st b).elements (containerStep st b).parsedKeys := by
  simp only [containerStep]
  refine parseNestedElements_invEK b _ ?_
  cases parseContainerWindowElement b with
  | none => exact h
  | some e =>
    dsimp only
    split
    · exact h
    · rename_i hne
      split
      · split
        · exact invEK_push _ _ e h hne
        · exact invEK_push _ _ e h hne
      · exact invEK_push _ _ e h hne

theorem parseContainerWindowTypes_invEK (content : Str) (st : ParseSt)
    (h : InvEK st.elements st.parsedKeys) :
    InvEK (parseContainerWindowTypes content st).elements
      (parseContainerWindowTypes content st).parsedKeys := by
  unfold parseContainerWindowTypes
  exact foldl_invEK _ containerStep_invEK _ st h

/-- C2 (amended): the (type, name, x, y)-dedup guard covers exactly the
guarded passes — top-level `containerWindowType` blocks and the nested
container/icon/button/text-box passes inside them: starting from a fresh
state, the container pass never emits two elements with the same key, and
the specification's concrete example (two syntactically distinct `iconType`
blocks named `icon_a` at (10,10) inside a container) yields exactly one
icon element.  The unguarded passes (`windowType`, checkbox, scrollbar,
grid box, list box, edit box) are outside the guard (see the
counterexample). -/
theorem c2_dedup_guarded_passes :
    (∀ (content : Str) (ws : Size),
      (((parseContainerWindowTypes content
          { elements := [], parsedKeys := [], windowSize := ws }).elements).map
        elementKey).Nodup) ∧
    (hoi4ParseFile hoi4Init []
        (.text ("guiTypes = \x7b containerWindowType = \x7b name = \x22c\x22 " ++
          "iconType = \x7b name = \x22icon_a\x22 position = \x7b x = 10 y = 10 \x7d " ++
          "spriteType = \x22GFX_a\x22 \x7d " ++
          "iconType = \x7b name = \x22icon_a\x22 position = \x7b x = 10 y = 10 \x7d " ++
          "spriteType = \x22GFX_b\x22 \x7d \x7d \x7d").toList)).2.countP
      (fun e => decide (e.element_type = iconTag)) = 1 := by
  constructor
  · intro content ws
    exact (parseContainerWindowTypes_invEK content _ invEK_nil).1
  · decide

theorem c2_counterexample_unguarded_window_duplicates :
    ¬ (((hoi4ParseFile hoi4Init []
        (.text ("guiTypes = \x7b windowType = \x7b name = \x22w\x22 \x7d " ++
          "windowType = \x7b name = \x22w\x22 \x7d \x7d").toList)).2.map
      elementKey).Nodup) ∧
    ((hoi4ParseFile hoi4Init []
        (.text ("guiTypes = \x7b windowType = \x7b name = \x22w\x22 \x7d " ++
          "windowType = \x7b name = \x22w\x22 \x7d \x7d").toList)).2.length = 2) := by
  constructor
  · decide
  · decide

theorem append_singleton_length_ne_one {α : Type} (l : List α) (x : α) (h : ¬ l = []) :
    ¬ ((l ++ [x]).length = 1) := by
  rw [List.length_append, List.length_singleton]
  intro hc
  exact h (List.length_eq_zero.mp (Nat.succ_injective hc))

theorem foldl_ws_extend {α : Type} (f : ParseSt → α → ParseSt)
    (hw : ∀ st a, (f st a).windowSize = st.windowSize)
    (he : ∀ st a, ∃ t, (f st a).elements = st.elements ++ t) (l : List α) :
    ∀ st, (l.foldl f st).windowSize = st.windowSize ∧
      ∃ t, (l.foldl f st).elements = st.elements ++ t := by
  induction l with
  | nil => exact fun st => ⟨rfl, [], (List.append_nil st.elements).symm⟩
  | cons a l2 ih =>
    intro st
    rw [List.foldl_cons]
    obtain ⟨ihw, t2, ihe⟩ := ih (f st a)
    refine ⟨ihw.trans (hw st a), ?_⟩
    obtain ⟨t1, h1⟩ := he st a
    exact ⟨t1 ++ t2, by rw [ihe, h1, List.append_assoc]⟩

theorem guardedStep_ws (parse : Str → Option GUIElement) (st : ParseSt) (b : Str) :
    (guardedStep parse st b).windowSize = st.windowSize := by
  unfold guardedStep
  cases parse b with
  | none => rfl
  | some e =>
    dsimp only
    split
    · rfl
    · rfl

theorem guardedStep_extend (parse : Str → Option GUIElement) (st : ParseSt) (b : Str) :
    ∃ t, (guardedStep parse st b).elements = st.elements ++ t := by
  unfold guardedStep
  cases parse b with
  | none => exact ⟨[], (List.append_nil st.elements).symm⟩
  | some e =>
    dsimp only
    split
    · exact ⟨[], (List.append_nil st.elements).symm⟩
    · exact ⟨[e], rfl⟩

theorem parseGuardedList_ws_extend (parse : Str → Option GUIElement) (bs : List Str)
    (st : ParseSt) :
    (parseGuardedList parse bs st).windowSize = st.windowSize ∧
      ∃ t, (parseGuardedList parse bs st).elements = st.elements ++ t := by
  unfold parseGuardedList
  exact foldl_ws_extend _ (guardedStep_ws parse) (guardedStep_extend parse) bs st

theorem parseNestedSimples_ws_extend (content : Str) (st : ParseSt) :
    (parseNestedSimples content st).windowSize = st.windowSize ∧
      ∃ t, (parseNestedSimples content st).elements = st.elements ++ t := by
  unfold parseNestedSimples
  obtain ⟨w1, t1, e1⟩ := parseGuardedList_ws_extend parseIconElement
    (extractBlockContent iconTag content) st
  obtain ⟨w2, t2, e2⟩ := parseGuardedList_ws_extend parseButtonElement
    (extractBlockContent buttonTag content) _
  obtain ⟨w3, t3, e3⟩ := parseGuardedList_ws_extend parseTextBoxElement
    (extractBlockContentCI textBoxTagCI content) _
  refine ⟨w3.trans (w2.trans w1), t1 ++ t2 ++ t3, ?_⟩
  rw [e3, e2, e1, List.append_assoc, List.append_assoc, List.append_assoc]

theorem parseNestedGo_ws_extend :
    ∀ (fuel : Nat) (stack : List NestedTask) (st : ParseSt),
      (parseNestedGo fuel stack st).windowSize = st.windowSize ∧
      ∃ t, (parseNestedGo fuel stack st).elements = st.elements ++ t := by
  intro fuel
  induction fuel with
  | zero => exact fun stack st => ⟨rfl, [], (List.append_nil st.elements).symm⟩
  | succ n ih =>
    intro stack st
    cases stack with
    | nil => exact ⟨rfl, [], (List.append_nil st.elements).symm⟩
    | cons task rest =>
      cases task with
      | nested content => exact ih _ _
      | containers bs =>
        cases bs with
        | nil => exact ih _ _
        | cons b bs2 =>
          show (parseNestedGo (n + 1) (.containers (b :: bs2) :: rest) st).windowSize =
              st.windowSize ∧ _
          rw [parseNestedGo]
          cases parseContainerWindowElement b with
          | none => exact ih _ _
          | some e =>
            dsimp only
            split
            · exact ih _ _
            · obtain ⟨hw, t, he⟩ := ih (.nested b :: .containers bs2 :: rest)
                { st with elements := st.elements ++ [e]
                          parsedKeys := elementKey e :: st.parsedKeys }
              exact ⟨hw, [e] ++ t, by rw [he, List.append_assoc]⟩
      | simples content =>
        show (parseNestedGo n rest (parseNestedSimples content st)).windowSize =
            st.windowSize ∧
          ∃ t, (parseNestedGo n rest (parseNestedSimples content st)).elements =
            st.elements ++ t
        obtain ⟨w1, t1, e1⟩ := parseNestedSimples_ws_extend content st
        obtain ⟨w2, t2, e2⟩ := ih rest (parseNestedSimples content st)
        exact ⟨w2.trans w1, t1 ++ t2, by rw [e2, e1, List.append_assoc]⟩

theorem parseNestedElements_ws_extend (content : Str) (st : ParseSt) :
    (parseNestedElements content st).windowSize = st.windowSize ∧
      ∃ t, (parseNestedElements content st).elements = st.elements ++ t :=
  parseNestedGo_ws_extend _ _ _

theorem containerStep_extend (st : ParseSt) (b : Str) :
    ∃ t, (containerStep st b).elements = st.elements ++ t := by
  simp only [containerStep]
  cases parseContainerWindowElement b with
  | none => exact (parseNestedElements_ws_extend b st).2
  | some e =>
    dsimp only
    split
    · exact (parseNestedElements_ws_extend b st).2
    · split
      · split
        · obtain ⟨t, ht⟩ := (parseNestedElements_ws_extend b _).2
          exact ⟨[e] ++ t, by rw [ht]; dsimp only; rw [List.append_assoc]⟩
        · obtain ⟨t, ht⟩ := (parseNestedElements_ws_extend b _).2
          exact ⟨[e] ++ t, by rw [ht]; dsimp only; rw [List.append_assoc]⟩
      · obtain ⟨t, ht⟩ := (parseNestedElements_ws_extend b _).2
        exact ⟨[e] ++ t, by rw [ht]; dsimp only; rw [List.append_assoc]⟩

theorem containerStep_ws_of_ne (st : ParseSt) (b : Str) (h : ¬ st.elements = []) :
    (containerStep st b).windowSize = st.windowSize := by
  simp only [containerStep]
  cases parseContainerWindowElement b with
  | none => exact (parseNestedElements_ws_extend b st).1
  | some e =>
    dsimp only
    split
    · exact (parseNestedElements_ws_extend b st).1
    · rw [if_neg (append_singleton_length_ne_one st.elements e h)]
      exact (parseNestedElements_ws_extend b _).1

theorem foldl_ws_ne {α : Type} (f : ParseSt → α → ParseSt)
    (hw : ∀ st a, ¬ st.elements = [] → (f st a).windowSize = st.windowSize)
    (he : ∀ st a, ∃ t, (f st a).elements = st.elements ++ t) (l : List α) :
    ∀ st, ¬ st.elements = [] →
      (l.foldl f st).windowSize = st.windowSize ∧ ¬ (l.foldl f st).elements = [] := by
  induction l with
  | nil => exact fun st h => ⟨rfl, h⟩
  | cons a l2 ih =>
    intro st h
    rw [List.foldl_cons]
    have hne : ¬ (f st a).elements = [] := by
      obtain ⟨t, ht⟩ := he st a
      rw [ht]
      exact fun hc => h (List.append_eq_nil.mp hc).1
    obtain ⟨ihw, ihne⟩ := ih (f st a) hne
    exact ⟨ihw.trans (hw st a h), ihne⟩

theorem windowStep_extend (st : ParseSt) (g : Str) :
    ∃ t, (windowStep st g).elements = st.elements ++ t := by
  unfold windowStep
  cases parseWindowElement g with
  | none => exact ⟨[], (List.append_nil st.elements).symm⟩
  | some e =>
    dsimp only
    split
    · split
      · exact ⟨[e], rfl⟩
      · exact ⟨[e], rfl⟩
    · exact ⟨[e], rfl⟩

theorem windowStep_ws_of_ne (st : ParseSt) (g : Str) (h : ¬ st.elements = []) :
    (windowStep st g).windowSize = st.windowSize := by
  unfold windowStep
  cases parseWindowElement g with
  | none => rfl
  | some e =>
    dsimp only
    rw [if_neg (append_singleton_length_ne_one st.elements e h)]

theorem simpleStep_ws (parse : Str → Option GUIElement) (st : ParseSt) (g : Str) :
    (simpleStep parse st g).windowSize = st.windowSize := by
  unfold simpleStep
  cases parse g with
  | none => rfl
  | some e => rfl

theorem simpleStep_extend (parse : Str → Option GUIElement) (st : ParseSt) (g : Str) :
    ∃ t, (simpleStep parse st g).elements = st.elements ++ t := by
  unfold simpleStep
  cases parse g with
  | none => exact ⟨[], (List.append_nil st.elements).symm⟩
  | some e => exact ⟨[e], rfl⟩

theorem parseSimpleTypes_ws_ne (tag : Str) (parse : Str → Option GUIElement)
    (content : Str) (st : ParseSt) (h : ¬ st.elements = []) :
    (parseSimpleTypes tag parse content st).windowSize = st.windowSize ∧
      ¬ (parseSimpleTypes tag parse content st).elements = [] := by
  unfold parseSimpleTypes
  exact foldl_ws_ne _ (fun st a _ => simpleStep_ws parse st a) (simpleStep_extend parse) _ st h

theorem parseTopLevelElements_ws_of_ne (content : Str) (st : ParseSt)
    (h : ¬ st.elements = []) :
    (parseTopLevelElements content st).windowSize = st.windowSize := by
  simp only [parseTopLevelElements]
  have h1 : (parseWindowTypes content st).windowSize = st.windowSize ∧
      ¬ (parseWindowTypes content st).elements = [] := by
    unfold parseWindowTypes
    exact foldl_ws_ne _ windowStep_ws_of_ne windowStep_extend _ st h
  obtain ⟨w2, n2⟩ := parseSimpleTypes_ws_ne checkboxTag parseCheckboxElement content _ h1.2
  obtain ⟨w3, n3⟩ := parseSimpleTypes_ws_ne scrollbarTag parseScrollbarElement content _ n2
  obtain ⟨w4, n4⟩ := parseSimpleTypes_ws_ne gridboxTag parseGridboxElement content _ n3
  obtain ⟨w5, n5⟩ := parseSimpleTypes_ws_ne listboxTag parseListboxElement content _ n4
  obtain ⟨w6, n6⟩ := parseSimpleTypes_ws_ne editboxTag parseEditboxElement content _ n5
  exact w6.trans (w5.trans (w4.trans (w3.trans (w2.trans h1.1))))

theorem containerStep_first (w : Size) (b : Str) (e : GUIElement) (z : Size)
    (hparse : parseContainerWindowElement b = some e) (hsize : e.size = some z) :
    containerStep { elements := [], parsedKeys := [], windowSize := w } b =
      parseNestedElements b
        { elements := [e], parsedKeys := [elementKey e], windowSize := z } := by
  simp only [containerStep]
  rw [hparse]
  dsimp only
  rw [if_neg (List.not_mem_nil (elementKey e))]
  rw [hsize]
  rfl

theorem parseElements_first_container_size (content : Str) (w : Size)
    (b : Str) (bs : List Str) (e : GUIElement) (z : Size)
    (hblocks : extractBlockContent containerTag content = b :: bs)
    (hparse : parseContainerWindowElement b = some e)
    (hsize : e.size = some z) :
    (parseElements content
      { elements := [], parsedKeys := [], windowSize := w }).windowSize = z := by
  simp only [parseElements]
  unfold parseContainerWindowTypes
  rw [hblocks, List.foldl_cons]
  rw [containerStep_first w b e z hparse hsize]
  obtain ⟨hw1, t1, he1⟩ := parseNestedElements_ws_extend b
    { elements := [e], parsedKeys := [elementKey e], windowSize := z }
  have hne1 : ¬ (parseNestedElements b
      { elements := [e], parsedKeys := [elementKey e], windowSize := z }).elements = [] := by
    rw [he1]
    dsimp only
    rw [List.singleton_append]
    exact List.cons_ne_nil e t1
  obtain ⟨hw2, hne2⟩ := foldl_ws_ne containerStep containerStep_ws_of_ne
    containerStep_extend bs _ hne1
  rw [parseTopLevelElements_ws_of_ne content _ hne2, hw2, hw1]

/-- C5 (amended): canvas-size selection.  The canvas size is set by the
first top-level `containerWindowType` block that parses to an element with
an explicit `size` — when the container list of the `guiTypes` block starts
with such a block, the parser's resulting `window_size` is exactly that
size, and no later container, window or simple element can change it (their
guarded/unguarded appends only fire the size update when the element list
has length one).  The original claim's "first container or window
encountered" is wrong when the first element is appended by the nested
pass, which never updates the window size (see the counterexample). -/
theorem c5_canvas_size_selection (p : HOI4Parser) (path s inner b : Str)
    (bs : List Str) (e : GUIElement) (z : Size)
    (hne : (pyStrip s).isEmpty = false)
    (hroot : rootBlock "guiTypes".toList (removeComments s) = some inner)
    (hblocks : extractBlockContent containerTag inner = b :: bs)
    (hparse : parseContainerWindowElement b = some e)
    (hsize : e.size = some z) :
    (hoi4ParseFile p path (.text s)).1.windowSize = z := by
  unfold hoi4ParseFile
  dsimp only
  rw [hne, if_neg Bool.false_ne_true, hroot]
  exact parseElements_first_container_size inner p.windowSize b bs e z hblocks hparse hsize

theorem c5_counterexample_nested_container_ignored :
    ((hoi4ParseFile hoi4Init []
        (.text ("guiTypes = \x7b containerWindowType = \x7b name = \x22 \x22 " ++
          "containerWindowType = \x7b name = \x22inner\x22 size = \x7b width = 400 " ++
          "height = 300 \x7d \x7d \x7d \x7d").toList)).2.head?.map
      (fun e => e.size)) = some (some { width := 400, height := 300 }) ∧
    (hoi4ParseFile hoi4Init []
        (.text ("guiTypes = \x7b containerWindowType = \x7b name = \x22 \x22 " ++
          "containerWindowType = \x7b name = \x22inner\x22 size = \x7b width = 400 " ++
          "height = 300 \x7d \x7d \x7d \x7d").toList)).1.windowSize =
      { width := 800, height := 600 } := by
  constructor
  · decide
  · decide

theorem c5_canvas_size_selection_witness :
    (pyStrip ("guiTypes = \x7b containerWindowType = \x7b name = \x22c\x22 size = " ++
      "\x7b width = 800 height = 600 \x7d \x7d windowType = \x7b name = \x22w\x22 " ++
      "size = \x7b width = 400 height = 300 \x7d \x7d \x7d").toList).isEmpty = false ∧
    rootBlock "guiTypes".toList
      (removeComments ("guiTypes = \x7b containerWindowType = \x7b name = \x22c\x22 size = " ++
        "\x7b width = 800 height = 600 \x7d \x7d windowType = \x7b name = \x22w\x22 " ++
        "size = \x7b width = 400 height = 300 \x7d \x7d \x7d").toList) =
      some (" containerWindowType = \x7b name = \x22c\x22 size = \x7b width = 800 " ++
        "height = 600 \x7d \x7d windowType = \x7b name = \x22w\x22 size = \x7b " ++
        "width = 400 height = 300 \x7d \x7d ").toList ∧
    extractBlockContent containerTag
      (" containerWindowType = \x7b name = \x22c\x22 size = \x7b width = 800 " ++
        "height = 600 \x7d \x7d windowType = \x7b name = \x22w\x22 size = \x7b " ++
        "width = 400 height = 300 \x7d \x7d ").toList =
      [(" name = \x22c\x22 size = \x7b width = 800 height = 600 \x7d ").toList] ∧
    parseContainerWindowElement (" name = \x22c\x22 size = \x7b width = 800 " ++
        "height = 600 \x7d ").toList =
      some { name := "c".toList, element_type := containerTag,
             position := { x := 0, y := 0 },
             size := some { width := 800, height := 600 }, properties := none,
             visible_condition := none, click_effect := none, is_dynamic := false,
             scripted_data := none } ∧
    (hoi4ParseFile hoi4Init []
      (.text ("guiTypes = \x7b containerWindowType = \x7b name = \x22c\x22 size = " ++
        "\x7b width = 800 height = 600 \x7d \x7d windowType = \x7b name = \x22w\x22 " ++
        "size = \x7b width = 400 height = 300 \x7d \x7d \x7d").toList)).1.windowSize =
      { width := 800, height := 600 } :=
  ⟨by decide, by decide, by decide, by decide,
    c5_canvas_size_selection hoi4Init []
      ("guiTypes = \x7b containerWindowType = \x7b name = \x22c\x22 size = " ++
        "\x7b width = 800 height = 600 \x7d \x7d windowType = \x7b name = \x22w\x22 " ++
        "size = \x7b width = 400 height = 300 \x7d \x7d \x7d").toList
      (" containerWindowType = \x7b name = \x22c\x22 size = \x7b width = 800 " ++
        "height = 600 \x7d \x7d windowType = \x7b name = \x22w\x22 size = \x7b " ++
        "width = 400 height = 300 \x7d \x7d ").toList
      (" name = \x22c\x22 size = \x7b width = 800 height = 600 \x7d ").toList []
      { name := "c".toList, element_type := containerTag,
        position := { x := 0, y := 0 },
        size := some { width := 800, height := 600 }, properties := none,
        visible_condition := none, click_effect := none, is_dynamic := false,
        scripted_data := none }
      { width := 800, height := 600 }
      (by decide) (by decide) (by decide) (by decide) (by decide)⟩

/-- Two parse states that agree on everything except possibly the window
size. -/
def EqEK (s t : ParseSt) : Prop :=
  s.elements = t.elements ∧ s.parsedKeys = t.parsedKeys

theorem foldl_eqEK {α : Type} (f : ParseSt → α → ParseSt)
    (hf : ∀ s t a, EqEK s t → EqEK (f s a) (f t a)) (l : List α) :
    ∀ s t, EqEK s t → EqEK (l.foldl f s) (l.foldl f t) := by
  induction l with
  | nil => exact fun s t h => h
  | cons a l2 ih =>
    intro s t h
    rw [List.foldl_cons, List.foldl_cons]
    exact ih _ _ (hf s t a h)

theorem guardedStep_eqEK (parse : Str → Option GUIElement) (s t : ParseSt) (b : Str)
    (h : EqEK s t) : EqEK (guardedStep parse s b) (guardedStep parse t b) := by
  unfold guardedStep
  cases parse b with
  | none => exact h
  | some e =>
    dsimp only
    by_cases hk : elementKey e ∈ s.parsedKeys
    · rw [if_pos hk, if_pos (h.2 ▸ hk)]
      exact h
    · rw [if_neg hk, if_neg (fun hc => hk (h.2.symm ▸ hc))]
      exact ⟨by dsimp only; rw [h.1], by dsimp only; rw [h.2]⟩

theorem parseGuardedList_eqEK (parse : Str → Option GUIElement) (bs : List Str)
    (s t : ParseSt) (h : EqEK s t) :
    EqEK (parseGuardedList parse bs s) (parseGuardedList parse bs t) := by
  unfold parseGuardedList
  exact foldl_eqEK _ (guardedStep_eqEK parse) bs s t h

theorem parseNestedSimples_eqEK (content : Str) (s t : ParseSt) (h : EqEK s t) :
    EqEK (parseNestedSimples content s) (parseNestedSimples content t) := by
  unfold parseNestedSimples
  exact parseGuardedList_eqEK _ _ _ _
    (parseGuardedList_eqEK _ _ _ _ (parseGuardedList_eqEK _ _ _ _ h))

theorem parseNestedGo_eqEK :
    ∀ (fuel : Nat) (stack : List NestedTask) (s t : ParseSt), EqEK s t →
      EqEK (parseNestedGo fuel stack s) (parseNestedGo fuel stack t) := by
  intro fuel
  induction fuel with
  | zero => exact fun _ s t h => h
  | succ n ih =>
    intro stack s t h
    cases stack with
    | nil => exact h
    | cons task rest =>
      cases task with
      | nested c => exact ih _ _ _ h
      | containers bs =>
        cases bs with
        | nil => exact ih _ _ _ h
        | cons b bs2 =>
          rw [parseNestedGo]
          rw [parseNestedGo]
          cases parseContainerWindowElement b with
          | none => exact ih _ _ _ h
          | some e =>
            dsimp only
            by_cases hk : elementKey e ∈ s.parsedKeys
            · rw [if_pos hk, if_pos (h.2 ▸ hk)]
              exact ih _ _ _ h
            · rw [if_neg hk, if_neg (fun hc => hk (h.2.symm ▸ hc))]
              exact ih _ _ _ ⟨by dsimp only; rw [h.1], by dsimp only; rw [h.2]⟩
      | simples c => exact ih _ _ _ (parseNestedSimples_eqEK c s t h)

theorem parseNestedElements_eqEK (content : Str) (s t : ParseSt) (h : EqEK s t) :
    EqEK (parseNestedElements content s) (parseNestedElements content t) :=
  parseNestedGo_eqEK _ _ _ _ h

theorem containerStep_eqEK (s t : ParseSt) (b : Str) (h : EqEK s t) :
    EqEK (containerStep s b) (containerStep t b) := by
  simp only [containerStep]
  refine parseNestedElements_eqEK b _ _ ?_
  cases parseContainerWindowElement b with
  | none => exact h
  | some e =>
    dsimp only
    by_cases hk : elementKey e ∈ s.parsedKeys
    · rw [if_pos hk, if_pos (h.2 ▸ hk)]
      exact h
    · rw [if_neg hk, if_neg (fun hc => hk (h.2.symm ▸ hc))]
      by_cases hl : (s.elements ++ [e]).length = 1
      · rw [if_pos hl, if_pos (by rw [← h.1]; exact hl)]
        cases e.size with
        | some z => exact ⟨by dsimp only; rw [h.1], by dsimp only; rw [h.2]⟩
        | none => exact ⟨by dsimp only; rw [h.1], by dsimp only; rw [h.2]⟩
      · rw [if_neg hl, if_neg (by rw [← h.1]; exact hl)]
        exact ⟨by dsimp only; rw [h.1], by dsimp only; rw [h.2]⟩

theorem windowStep_eqEK (s t : ParseSt) (g : Str) (h : EqEK s t) :
    EqEK (windowStep s g) (windowStep t g) := by
  unfold windowStep
  cases parseWindowElement g with
  | none => exact h
  | some e =>
    dsimp only
    by_cases hl : (s.elements ++ [e]).length = 1
    · rw [if_pos hl, if_pos (by rw [← h.1]; exact hl)]
      cases e.size with
      | some z => exact ⟨by dsimp only; rw [h.1], h.2⟩
      | none => exact ⟨by dsimp only; rw [h.1], h.2⟩
    · rw [if_neg hl, if_neg (by rw [← h.1]; exact hl)]
      exact ⟨by dsimp only; rw [h.1], h.2⟩

theorem simpleStep_eqEK (parse : Str → Option GUIElement) (s t : ParseSt) (g : Str)
    (h : EqEK s t) : EqEK (simpleStep parse s g) (simpleStep parse t g) := by
  unfold simpleStep
  cases parse g with
  | none => exact h
  | some e => exact ⟨by dsimp only; rw [h.1], h.2⟩

theorem parseElements_eqEK (content : Str) (w1 w2 : Size) :
    EqEK (parseElements content { elements := [], parsedKeys := [], windowSize := w1 })
      (parseElements content { elements := [], parsedKeys := [], windowSize := w2 }) := by
  simp only [parseElements, parseTopLevelElements]
  refine foldl_eqEK _ (simpleStep_eqEK parseEditboxElement) _ _ _ ?_
  refine foldl_eqEK _ (simpleStep_eqEK parseListboxElement) _ _ _ ?_
  refine foldl_eqEK _ (simpleStep_eqEK parseGridboxElement) _ _ _ ?_
  refine foldl_eqEK _ (simpleStep_eqEK parseScrollbarElement) _ _ _ ?_
  refine foldl_eqEK _ (simpleStep_eqEK parseCheckboxElement) _ _ _ ?_
  refine foldl_eqEK _ windowStep_eqEK _ _ _ ?_
  unfold parseContainerWindowTypes
  exact foldl_eqEK _ containerStep_eqEK _ _ _ ⟨rfl, rfl⟩

theorem hoi4ParseFile_scriptedGuiData (p : HOI4Parser) (path : Str) (f : FileInput) :
    (hoi4ParseFile p path f).1.scriptedGuiData = p.scriptedGuiData := by
  unfold hoi4ParseFile
  cases f with
  | missing => rfl
  | undecodable detail => rfl
  | text s =>
    dsimp only
    by_cases he : (pyStrip s).isEmpty = true
    · rw [if_pos he]
    · rw [if_neg he]
      cases rootBlock "guiTypes".toList (removeComments s) with
      | none => rfl
      | some inner => rfl

theorem hoi4ParseFile_stateless (q : HOI4Parser) (path : Str) (f : FileInput)
    (hsg : q.scriptedGuiData = []) :
    (hoi4ParseFile q path f).2 = (hoi4ParseFile hoi4Init path f).2 ∧
    (hoi4ParseFile q path f).1.parseErrors = (hoi4ParseFile hoi4Init path f).1.parseErrors := by
  unfold hoi4ParseFile
  cases f with
  | missing => exact ⟨rfl, rfl⟩
  | undecodable detail => exact ⟨rfl, rfl⟩
  | text s =>
    dsimp only
    by_cases he : (pyStrip s).isEmpty = true
    · rw [if_pos he, if_pos he]
      exact ⟨rfl, rfl⟩
    · rw [if_neg he, if_neg he]
      cases rootBlock "guiTypes".toList (removeComments s) with
      | none => exact ⟨rfl, rfl⟩
      | some inner =>
        dsimp only
        have hel : (parseElements inner
            { elements := [], parsedKeys := [], windowSize := q.windowSize }).elements =
            (parseElements inner
              { elements := [], parsedKeys := [],
                windowSize := hoi4Init.windowSize }).elements :=
          (parseElements_eqEK inner q.windowSize hoi4Init.windowSize).1
        rw [hsg, hel]
        exact ⟨rfl, rfl⟩

theorem scriptedParseFile_stateless (q : ScriptedParser) (path : Str) (f : FileInput) :
    (scriptedParseFile q path f).2 = (scriptedParseFile scriptedInit path f).2 ∧
    (scriptedParseFile q path f).1.parseErrors =
      (scriptedParseFile scriptedInit path f).1.parseErrors := by
  unfold scriptedParseFile
  cases f with
  | missing => exact ⟨rfl, rfl⟩
  | undecodable detail => exact ⟨rfl, rfl⟩
  | text s =>
    dsimp only
    by_cases he : (pyStrip s).isEmpty = true
    · rw [if_pos he, if_pos he]
      exact ⟨rfl, rfl⟩
    · rw [if_neg he, if_neg he]
      cases rootBlock "scripted_gui".toList (removeComments s) with
      | none => exact ⟨rfl, rfl⟩
      | some inner => exact ⟨rfl, rfl⟩

/-- C3 (amended): across two successive `parse_file` calls on the same
instance, the second call returns the same element/definition list and the
same error list as a freshly constructed parser — the stored scripted-GUI
data is never modified by `parse_file` and the element pass's output list
does not depend on the instance's carried `window_size`.  The carried
`window_size` itself, however, is NOT reset (see the counterexample), so
the original claim's inclusion of the derived canvas size is wrong. -/
theorem c3_stateless_across_loads (p1 p2 : Str) (f1 f2 : FileInput) :
    (hoi4ParseFile (hoi4ParseFile hoi4Init p1 f1).1 p2 f2).2 =
      (hoi4ParseFile hoi4Init p2 f2).2 ∧
    (hoi4ParseFile (hoi4ParseFile hoi4Init p1 f1).1 p2 f2).1.parseErrors =
      (hoi4ParseFile hoi4Init p2 f2).1.parseErrors ∧
    (scriptedParseFile (scriptedParseFile scriptedInit p1 f1).1 p2 f2).2 =
      (scriptedParseFile scriptedInit p2 f2).2 ∧
    (scriptedParseFile (scriptedParseFile scriptedInit p1 f1).1 p2 f2).1.parseErrors =
      (scriptedParseFile scriptedInit p2 f2).1.parseErrors := by
  have hq := hoi4ParseFile_stateless (hoi4ParseFile hoi4Init p1 f1).1 p2 f2
    (hoi4ParseFile_scriptedGuiData hoi4Init p1 f1)
  have hs := scriptedParseFile_stateless (scriptedParseFile scriptedInit p1 f1).1 p2 f2
  exact ⟨hq.1, hq.2, hs.1, hs.2⟩

theorem c3_counterexample_window_size_persists :
    (hoi4ParseFile (hoi4ParseFile hoi4Init []
        (.text ("guiTypes = \x7b containerWindowType = \x7b name = \x22a\x22 size = " ++
          "\x7b width = 500 height = 400 \x7d \x7d \x7d").toList)).1 []
      (.text ("guiTypes = \x7b containerWindowType = \x7b name = \x22b\x22 \x7d " ++
        "\x7d").toList)).1.windowSize = { width := 500, height := 400 } ∧
    (hoi4ParseFile hoi4Init []
      (.text ("guiTypes = \x7b containerWindowType = \x7b name = \x22b\x22 \x7d " ++
        "\x7d").toList)).1.windowSize = { width := 800, height := 600 } := by
  constructor
  · decide
  · decide
